import Mathlib

/-!
# Replay engine of `verilated_replay.cpp`

A shallow embedding of `src/include/verilated_replay.cpp` and the properties
of it that the specification states.

Conventions of the embedding

* Memory is one byte-addressed space `Mem`; a pointer is an address (`Nat`).
  The model's signal storage and the expected buffers live in it.
* The reader's value string `valuep` is the list of the bytes it points at
  (ASCII codes); `valuep[i]` is `valuep.getD i 0`.
* Everything the engine does to its collaborators (model, trace sink,
  standard output) is appended, in order, to an action log.
-/

set_option autoImplicit false

namespace VerilatedReplay

/-! ## Memory -/

/-- Byte-addressed memory: address to byte value. -/
abbrev Mem := Nat → Nat

/-- The store `*p = v`. -/
def Mem.store (mem : Mem) (p v : Nat) : Mem := fun a => if a = p then v else mem a

/-! ## `copyValue` (lines 128-139) -/

/-- ASCII code of the character `'1'`. -/
def chr1 : Nat := 49

/-- ASCII code of the character `'0'`. -/
def chr0 : Nat := 48

/-- Local state of the loop of `copyValue`, with the accesses made so far. -/
structure CopyState where
  /-- the moving destination pointer `to` -/
  to_ : Nat
  /-- the accumulator `byte` -/
  byte : Nat
  /-- memory -/
  mem : Mem
  /-- indices of `valuep` read so far, in order -/
  reads : List Nat
  /-- addresses stored to so far, in order -/
  writes : List Nat

/-- One iteration of the `for` loop of `copyValue`, for loop counter `bit`. -/
def copyValueBody (valuep : List Nat) (len : Nat) (st : CopyState) (bit : Nat) : CopyState :=
  -- char value = valuep[len - 1 - bit];
  let value := valuep.getD (len - 1 - bit) 0
  -- if (value == '1') byte |= 1 << (bit % 8);      (byte is a vluint8_t)
  let byte := if value = chr1 then (st.byte ||| (1 <<< (bit % 8))) % 256 else st.byte
  -- if ((bit + 1) % 8 == 0 || bit == len - 1) { *to = byte; ++to; byte = 0; }
  if (bit + 1) % 8 = 0 ∨ bit = len - 1 then
    { to_ := st.to_ + 1
      byte := 0
      mem := st.mem.store st.to_ byte
      reads := st.reads ++ [len - 1 - bit]
      writes := st.writes ++ [st.to_] }
  else
    { to_ := st.to_
      byte := byte
      mem := st.mem
      reads := st.reads ++ [len - 1 - bit]
      writes := st.writes }

/-- The loop `for (size_t bit = 0; bit < len; ++bit)` run for its first `n` counters. -/
def copyValueIter (valuep : List Nat) (len : Nat) (st : CopyState) (n : Nat) : CopyState :=
  (List.range n).foldl (copyValueBody valuep len) st

/-- The whole of `copyValue`: `byte = 0`, then the loop over `bit = 0 .. len-1`. -/
def copyValueRun (mem : Mem) (to_ : Nat) (valuep : List Nat) (len : Nat) : CopyState :=
  copyValueIter valuep len { to_ := to_, byte := 0, mem := mem, reads := [], writes := [] } len

/-- Memory after `copyValue(to, valuep, len)`. -/
def copyValue (mem : Mem) (to_ : Nat) (valuep : List Nat) (len : Nat) : Mem :=
  (copyValueRun mem to_ valuep len).mem

/-! ### Specification-side vocabulary for the packer -/

/-- Whether the source character that feeds bit `i` is `'1'`. -/
def srcBit (valuep : List Nat) (len i : Nat) : Bool :=
  decide (valuep.getD (len - 1 - i) 0 = chr1)

/-- Bit `i` of a buffer at `to`: bit `i % 8` of byte `i / 8`, LSB of byte 0 first. -/
def bufBit (mem : Mem) (to_ i : Nat) : Bool := (mem (to_ + i / 8)).testBit (i % 8)

/-- The bits `lo .. lo+n-1` of the source, packed with bit `lo` at position 0. -/
def packBits (valuep : List Nat) (len lo : Nat) : Nat → Nat
  | 0 => 0
  | n + 1 => if srcBit valuep len (lo + n) then packBits valuep len lo n ||| (1 <<< n)
             else packBits valuep len lo n

/-- MSB-first ASCII encoding of a bit pattern given LSB first (`b[i]` is bit `i`). -/
def encodeBits (b : List Bool) : List Nat :=
  b.reverse.map (fun x => if x then chr1 else chr0)

/-- Reading bits `0 .. w-1` of a packed buffer back, LSB of byte 0 first. -/
def unpackBits (mem : Mem) (to_ w : Nat) : List Bool :=
  (List.range w).map (bufBit mem to_)

/-! ### The loop invariant of the packer -/

/-- Number of destination bytes completed once the loop has run `k` of its `len` counters. -/
def doneBytes (len k : Nat) : Nat := if k = len then (len + 7) / 8 else k / 8

/-- The loop invariant of `copyValue` after `k` iterations. -/
structure CopyInv (mem : Mem) (to_ : Nat) (valuep : List Nat) (len k : Nat)
    (st : CopyState) : Prop where
  to_eq : st.to_ = to_ + doneBytes len k
  byte_eq : st.byte = if k = len then 0 else packBits valuep len (8 * (k / 8)) (k % 8)
  mem_eq : ∀ a, st.mem a =
    if to_ ≤ a ∧ a < to_ + doneBytes len k then
      packBits valuep len (8 * (a - to_)) (min 8 (len - 8 * (a - to_)))
    else mem a
  reads_eq : st.reads = (List.range k).map (fun bit => len - 1 - bit)
  writes_eq : st.writes = (List.range (doneBytes len k)).map (fun j => to_ + j)

/-! ## Engine data

The class `VerilatedReplay` and the types of its members are declared in
`verilated_replay.h`, which is not part of the sources at hand; the fields
below are the ones `verilated_replay.cpp` uses.
-/

/-- Modelled from the spec: the struct `FstSignal` (declared in the absent header) is
the signal descriptor of the data model: a bit width, the pointer `signal` into the
model's memory, and for outputs the pointer `expected` to the expected buffer.  The
fields are those the constructor calls `FstSignal(bits, signal)` and
`FstSignal(bits, signal, buffer)` of `init` set and `outputCheck` reads. -/
structure FstSignal where
  bits : Nat
  signal : Nat
  expected : Nat
deriving DecidableEq

/-- Modelled from the spec: an entry of a `VarMap` (type declared in an absent header):
the reader's record of a variable, of which the source uses `fullName` and
`hier.u.var.length`. -/
structure FstVar where
  fullName : String
  length : Nat
deriving DecidableEq

/-- The number that the conversion `%ld` prints for an unsigned 64-bit argument: the same
64 bits read as a signed integer, so values from `2^63` on appear negative. -/
def printedLd (v : Nat) : Int :=
  if v % 2 ^ 64 < 2 ^ 63 then ((v % 2 ^ 64 : Nat) : Int)
  else ((v % 2 ^ 64 : Nat) : Int) - 2 ^ 64

/-- What the engine does to its collaborators, in the order it does it. -/
inductive Action where
  /-- the call `m_modp->eval()`, made while `m_time` has the given value -/
  | eval (time : Nat)
  /-- the report `VL_PRINTF("Miscompare: %s @ %ld\n", fullName, m_time)`: the name and the
  number printed for the time -/
  | miscompare (fullName : String) (time : Int)
  /-- the trace sample `m_tfp->dump(m_simTime)` -/
  | dump (simTime : Nat)
  /-- the call `m_modp->final()` -/
  | final
  /-- the print `VL_PRINTF("%lu %u %s\n", time, facidx, valuep)` of `fstCb` -/
  | printEvent (time facidx : Nat) (valuep : List Nat)
  /-- a call `copyValue(to, valuep, len)`: the value write of an event -/
  | copy (to_ len : Nat)
  /-- the print `VL_PRINTF("Error iterating FST\n")` -/
  | iterError
deriving DecidableEq

/-! ### `std::map` as a key-ordered association list -/

section Maps

variable {κ α : Type} [DecidableEq κ] [LT κ] [DecidableRel (fun a b : κ => a < b)]

/-- The lookup `m.find(k)`: the value under key `k`, if any. -/
def mapFind : List (κ × α) → κ → Option α
  | [], _ => none
  | (k', v) :: rest, k => if k' = k then some v else mapFind rest k

/-- Insertion of a new key at its place in the key order; an existing key stays as it is. -/
def mapInsert : List (κ × α) → κ → α → List (κ × α)
  | [], k, v => [(k, v)]
  | (k', v') :: rest, k, v =>
    if k < k' then (k, v) :: (k', v') :: rest
    else if k = k' then (k', v') :: rest
    else (k', v') :: mapInsert rest k v

/-- The access `m[k]` of `std::map::operator[]`: the value under `k`, after inserting a
default-constructed value when `k` is absent.  Returns the value and the map. -/
def mapIndex (dflt : α) (m : List (κ × α)) (k : κ) : α × List (κ × α) :=
  match mapFind m k with
  | some v => (v, m)
  | none => (dflt, mapInsert m k dflt)

end Maps

/-- What the build and the model under test fix for a session. -/
structure Env where
  /-- the compile-time flag `VM_TRACE` -/
  VM_TRACE : Bool
  /-- the effect of `m_modp->eval()` on memory -/
  modelEval : Mem → Mem
  /-- the effect of `m_modp->final()` on memory -/
  modelFinal : Mem → Mem
  /-- the value of a default-constructed `FstSignal()` (constructor in the absent header) -/
  defaultSignal : FstSignal
  /-- the value of a default-constructed `VarMap` entry; its `fullName` is a `std::string` -/
  defaultVar : FstVar

/-- The members of `VerilatedReplay` the source uses, the memory and the action log. -/
structure State where
  m_time : Nat
  m_simTime : Nat
  m_inputNames : List (String × FstSignal)
  m_outputNames : List (String × FstSignal)
  m_inputs : List (Nat × FstVar)
  m_outputs : List (Nat × FstVar)
  m_inputHandles : List (Nat × FstSignal)
  m_outputHandles : List (Nat × FstSignal)
  /-- whether the trace sink pointer `m_tfp` is non-null -/
  m_tfp : Bool
  mem : Mem
  log : List Action

/-! ## `outputCheck`, `eval`, `trace`, `final` (lines 173-213) -/

/-- The library function `std::memcmp(p, q, n)`: zero iff the first `n` bytes agree, else
the difference of the first pair of bytes that differ. -/
def memcmp (mem : Mem) (p q : Nat) : Nat → Int
  | 0 => 0
  | n + 1 =>
    if mem p = mem q then memcmp mem (p + 1) (q + 1) n
    else (mem p : Int) - (mem q : Int)

/-- One iteration of the loop of `outputCheck`, for the map entry `it`. -/
def outputCheckBody (env : Env) (s : State) (it : Nat × FstSignal) : State :=
  -- size_t bytes = (it->second.bits + 7) / 8;
  let bytes := (it.2.bits + 7) / 8
  -- if (std::memcmp(it->second.expected, it->second.signal, bytes)) {
  if memcmp s.mem it.2.expected it.2.signal bytes ≠ 0 then
    -- fstHandle facidx = it->first;
    let facidx := it.1
    -- VL_PRINTF("Miscompare: %s @ %ld\n", m_outputs[facidx].fullName.c_str(), m_time);
    let r := mapIndex env.defaultVar s.m_outputs facidx
    -- (m_time is an unsigned 64-bit value, printed with `%ld`)
    { s with
      m_outputs := r.2
      log := s.log ++ [Action.miscompare r.1.fullName (printedLd s.m_time)] }
  else s

/-- The function `outputCheck()`: the loop over the entries of `m_outputHandles`. -/
def outputCheck (env : Env) (s : State) : State :=
  s.m_outputHandles.foldl (outputCheckBody env) s

/-- The function `eval()`: `m_modp->eval(); outputCheck();`. -/
def eval (env : Env) (s : State) : State :=
  outputCheck env { s with mem := env.modelEval s.mem, log := s.log ++ [Action.eval s.m_time] }

/-- The function `trace()`: under `#if VM_TRACE`, `if (m_tfp) m_tfp->dump(m_simTime);`. -/
def trace (env : Env) (s : State) : State :=
  if env.VM_TRACE then
    if s.m_tfp then { s with log := s.log ++ [Action.dump s.m_simTime] } else s
  else s

/-- The function `final()`: `m_modp->final();`. -/
def final (env : Env) (s : State) : State :=
  { s with mem := env.modelFinal s.mem, log := s.log ++ [Action.final] }

/-! ## The event handler (lines 107-171) -/

/-- The function `handleInput(facidx, valuep, len)`. -/
def handleInput (env : Env) (s : State) (facidx : Nat) (valuep : List Nat) (len : Nat) : State :=
  -- vluint8_t* signal = m_inputHandles[facidx].signal;
  let r := mapIndex env.defaultSignal s.m_inputHandles facidx
  let signal := r.1.signal
  -- copyValue(signal, valuep, len);
  { s with
    m_inputHandles := r.2
    mem := copyValue s.mem signal valuep len
    log := s.log ++ [Action.copy signal len] }

/-- The function `handleOutput(facidx, valuep, len)`. -/
def handleOutput (env : Env) (s : State) (facidx : Nat) (valuep : List Nat) (len : Nat) : State :=
  -- FstSignal& fstSignal = m_outputHandles[facidx];
  let r := mapIndex env.defaultSignal s.m_outputHandles facidx
  -- size_t bytes = (len + 7) / 8;      (not used afterwards)
  -- copyValue(fstSignal.expected, valuep, len);
  { s with
    m_outputHandles := r.2
    mem := copyValue s.mem r.1.expected valuep len
    log := s.log ++ [Action.copy r.1.expected len] }

/-- The part of `fstCb` before the dispatch: the time-step check and the print. -/
def fstCbStep (env : Env) (s : State) (time facidx : Nat) (valuep : List Nat) : State :=
  -- if (m_time != time) { eval(); trace(); m_time = time; m_simTime = m_time; }
  let s1 :=
    if s.m_time ≠ time then
      let s' := trace env (eval env s)
      { s' with m_time := time, m_simTime := time }
    else s
  -- VL_PRINTF("%lu %u %s\n", time, facidx, valuep);
  { s1 with log := s1.log ++ [Action.printEvent time facidx valuep] }

/-- The function `fstCb(time, facidx, valuep, len)`. -/
def fstCb (env : Env) (s : State) (time facidx : Nat) (valuep : List Nat) (len : Nat) : State :=
  let s2 := fstCbStep env s time facidx valuep
  -- if (m_outputHandles.empty() || m_inputHandles.find(facidx) != m_inputHandles.end())
  if s2.m_outputHandles.isEmpty ∨ (mapFind s2.m_inputHandles facidx).isSome then
    handleInput env s2 facidx valuep len
  else
    handleOutput env s2 facidx valuep len

/-- The library function `strlen`: the number of bytes before the first zero byte. -/
def strlen (str : List Nat) : Nat := (str.takeWhile (fun c => c ≠ 0)).length

/-- The callback `fstCallbackVarlen(userDatap, time, facidx, valuep, len)`.  The pointer
`valuep` may be null (`none`); a null pointer addresses no bytes. -/
def fstCallbackVarlen (env : Env) (s : State) (time facidx : Nat)
    (valuep : Option (List Nat)) (len : Nat) : State :=
  fstCb env s time facidx (valuep.getD []) len

/-- The callback `fstCallback(userDatap, time, facidx, valuep)`. -/
def fstCallback (env : Env) (s : State) (time facidx : Nat)
    (valuep : Option (List Nat)) : State :=
  -- uint32_t len; if (valuep) { len = strlen(valuep); } else { len = 0; }
  let len := match valuep with
    | some str => strlen str % 2 ^ 32
    | none => 0
  fstCallbackVarlen env s time facidx valuep len

/-! ## `replay` (lines 89-105) -/

/-- One callback made by the reader while it iterates the blocks of the file. -/
inductive ReaderCall where
  /-- the reader calls `fstCallbackVarlen` -/
  | varlen (time facidx : Nat) (valuep : Option (List Nat)) (len : Nat)
  /-- the reader calls `fstCallback` -/
  | fixed (time facidx : Nat) (valuep : Option (List Nat))

/-- Timestamp of an event. -/
def ReaderCall.time : ReaderCall → Nat
  | .varlen t _ _ _ => t
  | .fixed t _ _ => t

/-- The engine's reaction to one callback of the reader. -/
def deliver (env : Env) (s : State) : ReaderCall → State
  | .varlen t h v n => fstCallbackVarlen env s t h v n
  | .fixed t h v => fstCallback env s t h v

/-- The engine's reaction to a sequence of callbacks. -/
def deliverAll (env : Env) (s : State) (calls : List ReaderCall) : State :=
  calls.foldl (deliver env) s

/-- What one call of the reader library's `fstReaderIterBlocks2` does, seen from the
engine: the callbacks it makes, in order, and the value it returns (0 on error). -/
structure ReaderRun where
  calls : List ReaderCall
  ret : Nat

/-- How `replay` ends. -/
inductive Exit where
  /-- the statement `return code` -/
  | returned (code : Int)
  /-- the call `exit(code)` -/
  | exited (code : Int)
deriving DecidableEq

/-- The function `replay()`. -/
def replay (env : Env) (s : State) (r : ReaderRun) : State × Exit :=
  -- if (fstReaderIterBlocks2(m_fstp, &fstCallback, &fstCallbackVarlen, this, NULL) == 0) {
  let s1 := deliverAll env s r.calls
  if r.ret = 0 then
    -- VL_PRINTF("Error iterating FST\n"); exit(-1);
    ({ s1 with log := s1.log ++ [Action.iterError] }, Exit.exited (-1))
  else
    -- eval(); trace(); final(); return 0;
    (final env (trace env (eval env s1)), Exit.returned 0)

/-! ## Specification-side vocabulary for the engine -/

/-- The first `ceil(bits/8)` bytes of the expected buffer differ from those of the
actual buffer. -/
def differs (mem : Mem) (sig : FstSignal) : Prop :=
  ∃ i, i < (sig.bits + 7) / 8 ∧ mem (sig.expected + i) ≠ mem (sig.signal + i)

instance (mem : Mem) (sig : FstSignal) : Decidable (differs mem sig) :=
  inferInstanceAs
    (Decidable (∃ i, i < (sig.bits + 7) / 8 ∧ mem (sig.expected + i) ≠ mem (sig.signal + i)))

/-- The full name the registry holds for an output handle (`m_outputs[facidx].fullName`). -/
def fullNameOf (env : Env) (outputs : List (Nat × FstVar)) (facidx : Nat) : String :=
  match mapFind outputs facidx with
  | some v => v.fullName
  | none => env.defaultVar.fullName

/-- The reports due for a list of output descriptors: one per descriptor whose buffers
differ, in the order of the descriptors, each with the full name of the handle and the
number `%ld` prints for the time. -/
def dueReports (env : Env) (mem : Mem) (outputs : List (Nat × FstVar)) (time : Nat)
    (handles : List (Nat × FstSignal)) : List Action :=
  (handles.filter (fun it => decide (differs mem it.2))).map
    (fun it => Action.miscompare (fullNameOf env outputs it.1) (printedLd time))

/-- The sample the trace sink gets from one call of `trace()`. -/
def traceSample (env : Env) (s : State) : List Action :=
  if env.VM_TRACE && s.m_tfp then [Action.dump s.m_simTime] else []

/-- The times at which `eval` was called, in order. -/
def evalTimes : List Action → List Nat
  | [] => []
  | Action.eval t :: rest => t :: evalTimes rest
  | _ :: rest => evalTimes rest

/-- The times of the trace samples, in order. -/
def traceSamples : List Action → List Nat
  | [] => []
  | Action.dump t :: rest => t :: traceSamples rest
  | _ :: rest => traceSamples rest

/-- The reports, in order. -/
def miscompares : List Action → List (String × Int)
  | [] => []
  | Action.miscompare n t :: rest => (n, t) :: miscompares rest
  | _ :: rest => miscompares rest

/-- For each value write in the log, the number of `eval` calls since the previous
value write (or since the start of the log, counted from `n`). -/
def evalsBeforeCopies : List Action → Nat → List Nat
  | [], _ => []
  | Action.copy _ _ :: rest, n => n :: evalsBeforeCopies rest 0
  | Action.eval _ :: rest, n => evalsBeforeCopies rest (n + 1)
  | _ :: rest, n => evalsBeforeCopies rest n

/-- The state `s'` differs from `s` at most in `m_outputs` and in the log. -/
structure CheckFrame (s s' : State) : Prop where
  m_time : s'.m_time = s.m_time
  m_simTime : s'.m_simTime = s.m_simTime
  m_inputNames : s'.m_inputNames = s.m_inputNames
  m_outputNames : s'.m_outputNames = s.m_outputNames
  m_inputs : s'.m_inputs = s.m_inputs
  m_inputHandles : s'.m_inputHandles = s.m_inputHandles
  m_outputHandles : s'.m_outputHandles = s.m_outputHandles
  m_tfp : s'.m_tfp = s.m_tfp
  mem : s'.mem = s.mem

/-- What the time-step check of `fstCb` adds to the log before the event's own print: at a
change of time the model's `eval`, the reports of the output check on the evaluated
memory, and the trace sample; otherwise nothing. -/
def boundaryLog (env : Env) (s : State) (time : Nat) : List Action :=
  if s.m_time ≠ time then
    [Action.eval s.m_time]
      ++ dueReports env (env.modelEval s.mem) s.m_outputs s.m_time s.m_outputHandles
      ++ traceSample env s
  else []

/-- The times at which a run started at time `prev` calls `eval` while it takes in events
with the given timestamps: the old time at every change of time. -/
def boundaries : Nat → List Nat → List Nat
  | _, [] => []
  | prev, t :: ts => if prev ≠ t then prev :: boundaries t ts else boundaries t ts

/-- For each event, 1 if its timestamp differs from the one before it (`prev` for the
first event), else 0. -/
def changes : Nat → List Nat → List Nat
  | _, [] => []
  | prev, t :: ts => (if prev ≠ t then 1 else 0) :: changes t ts

/-- The time of the last event, or `prev` when there is none. -/
def lastTime : Nat → List Nat → Nat
  | prev, [] => prev
  | _, t :: ts => lastTime t ts

/-! ## Registration and `init` (lines 29-87, 185-196) -/

section MapAssign

variable {κ α : Type} [DecidableEq κ] [LT κ] [DecidableRel (fun a b : κ => a < b)]

/-- The assignment `m[k] = v`: the value under `k` becomes `v`; a new key takes its place
in the key order. -/
def mapAssign : List (κ × α) → κ → α → List (κ × α)
  | [], k, v => [(k, v)]
  | (k', v') :: rest, k, v =>
    if k < k' then (k, v) :: (k', v') :: rest
    else if k = k' then (k', v) :: rest
    else (k', v') :: mapAssign rest k v

end MapAssign

/-- Modelled from the spec: the two-argument constructor `FstSignal(bits, signal)` is
declared in the absent header; a descriptor built with it has no expected buffer, and its
`expected` pointer is taken to be null. -/
def FstSignal.ofSignal (bits signal : Nat) : FstSignal :=
  { bits := bits, signal := signal, expected := 0 }

/-- The function `addInput(fullName, signal, size)`. -/
def addInput (s : State) (fullName : String) (signal size : Nat) : State :=
  -- m_inputNames[fullName] = FstSignal(size, signal);
  { s with m_inputNames := mapAssign s.m_inputNames fullName (FstSignal.ofSignal size signal) }

/-- The function `addOutput(fullName, signal, size)`. -/
def addOutput (s : State) (fullName : String) (signal size : Nat) : State :=
  -- m_outputNames[fullName] = FstSignal(size, signal);
  { s with m_outputNames := mapAssign s.m_outputNames fullName (FstSignal.ofSignal size signal) }

/-- One call of `addInput` or `addOutput`. -/
structure Registration where
  isInput : Bool
  fullName : String
  signal : Nat
  size : Nat
deriving DecidableEq

/-- The registration a call stands for. -/
def register (s : State) (r : Registration) : State :=
  if r.isInput then addInput s r.fullName r.signal r.size
  else addOutput s r.fullName r.signal r.size

/-- Modelled from the spec: what the parts of a session that `init` calls but that are not
in the sources at hand provide.  `addSignals` registers the boundary signals through
`addInput` and `addOutput`; `addInputName`, `addOutputName`, `openFst` and `searchFst` scan
the waveform and leave in `m_inputs` and `m_outputs` the reader's record (handle, full
name, width) of each variable; `fstReaderGetStartTime` gives the start time; and
`new vluint8_t[bytes]` returns the address of a fresh block of `bytes` bytes. -/
structure Session where
  /-- the calls `addSignals` makes, in order -/
  signals : List Registration
  /-- the map `m_inputs` after `searchFst` -/
  inputs : List (Nat × FstVar)
  /-- the map `m_outputs` after `searchFst` -/
  outputs : List (Nat × FstVar)
  /-- the value of `fstReaderGetStartTime(m_fstp)` -/
  startTime : Nat
  /-- the address `new vluint8_t[bytes]` returns for the output with the given handle -/
  newBuffer : (facidx bytes : Nat) → Nat

/-- The function `createMod()`: under `#if VM_TRACE` it creates and opens the trace sink. -/
def createMod (env : Env) (s : State) : State :=
  if env.VM_TRACE then { s with m_tfp := true } else s

/-- The body of the first loop of `init`, for the entry `it` of `m_inputs`. -/
def initInputBody (env : Env) (s : State) (it : Nat × FstVar) : State :=
  -- m_inputHandles[it->first] = FstSignal(it->second.hier.u.var.length,
  --                                       m_inputNames[it->second.fullName].signal);
  let r := mapIndex env.defaultSignal s.m_inputNames it.2.fullName
  { s with
    m_inputNames := r.2
    m_inputHandles := mapAssign s.m_inputHandles it.1 (FstSignal.ofSignal it.2.length r.1.signal) }

/-- The body of the second loop of `init`, for the entry `it` of `m_outputs`. -/
def initOutputBody (env : Env) (w : Session) (s : State) (it : Nat × FstVar) : State :=
  -- size_t bits = it->second.hier.u.var.length;
  let bits := it.2.length
  -- size_t bytes = (bits + 7) / 8;
  let bytes := (bits + 7) / 8
  -- vluint8_t* buffer = new vluint8_t [bytes];
  let buffer := w.newBuffer it.1 bytes
  -- m_outputHandles[it->first] = FstSignal(bits, m_outputNames[it->second.fullName].signal,
  --                                        buffer);
  let r := mapIndex env.defaultSignal s.m_outputNames it.2.fullName
  { s with
    m_outputNames := r.2
    m_outputHandles := mapAssign s.m_outputHandles it.1
      { bits := bits, signal := r.1.signal, expected := buffer } }

/-- A line `VL_PRINTF("input %s = %d\n", ...)` or `VL_PRINTF("output %s = %d\n", ...)`. -/
structure InitPrint where
  isInput : Bool
  fullName : String
  facidx : Nat
deriving DecidableEq

/-- What `init` leaves: the engine state, the lines it printed and its return value. -/
structure InitResult where
  state : State
  printed : List InitPrint
  ret : Int

/-- The function `init()`. -/
def init (env : Env) (w : Session) (s : State) : InitResult :=
  -- createMod();
  let s1 := createMod env s
  -- addSignals();
  let s2 := w.signals.foldl register s1
  -- the loops over addInputName / addOutputName; openFst(m_fstName); searchFst(NULL);
  let s3 := { s2 with m_inputs := w.inputs, m_outputs := w.outputs }
  -- m_time = fstReaderGetStartTime(m_fstp); m_simTime = m_time;
  let s4 := { s3 with m_time := w.startTime, m_simTime := w.startTime }
  -- for (it = m_inputs.begin(); ...)  { VL_PRINTF("input %s = %d\n", ...); ... }
  let s5 := s4.m_inputs.foldl (initInputBody env) s4
  -- for (it = m_outputs.begin(); ...) { VL_PRINTF("output %s = %d\n", ...); ... }
  let s6 := s5.m_outputs.foldl (initOutputBody env w) s5
  -- return 0;
  { state := s6
    printed := s4.m_inputs.map (fun it => { isInput := true, fullName := it.2.fullName, facidx := it.1 })
      ++ s5.m_outputs.map (fun it => { isInput := false, fullName := it.2.fullName, facidx := it.1 })
    ret := 0 }

/-- The engine before `init`: no signal is registered or bound, no trace sink is open, the
log is empty; `mem` is the memory as the process finds it. -/
def freshState (mem : Mem) : State :=
  { m_time := 0
    m_simTime := 0
    m_inputNames := []
    m_outputNames := []
    m_inputs := []
    m_outputs := []
    m_inputHandles := []
    m_outputHandles := []
    m_tfp := false
    mem := mem
    log := [] }

/-! ## More specification-side vocabulary -/

/-- Memory as the time-step check of `fstCb` leaves it, before the event's value is
packed: the model has been evaluated when the event's time differs from `m_time`. -/
def memAfterStep (env : Env) (s : State) (time : Nat) : Mem :=
  if s.m_time ≠ time then env.modelEval s.mem else s.mem

/-- The engine state proper: everything but the log of past actions. -/
def State.withoutLog (s : State) : State := { s with log := [] }

/-- The byte ranges `[p, p + n)` and `[q, q + m)` do not overlap. -/
def disjointRanges (p n q m : Nat) : Prop := p + n ≤ q ∨ q + m ≤ p

/-- The map `m_outputs` as the time-step check of `fstCb` leaves it (the output check may
add default entries to it). -/
def outputsAfterStep (env : Env) (s : State) (time : Nat) : List (Nat × FstVar) :=
  if s.m_time ≠ time then (eval env s).m_outputs else s.m_outputs

/-- The event is handled as an input: its value is packed at the `signal` pointer of
`m_inputHandles[facidx]`, the output handle map is not touched, and the value write in
the log is a write to that pointer. -/
def treatedAsInput (env : Env) (s : State) (time facidx : Nat) (valuep : List Nat)
    (len : Nat) : Prop :=
  (fstCb env s time facidx valuep len).mem
      = copyValue (memAfterStep env s time)
          (mapIndex env.defaultSignal s.m_inputHandles facidx).1.signal valuep len
  ∧ (fstCb env s time facidx valuep len).m_inputHandles
      = (mapIndex env.defaultSignal s.m_inputHandles facidx).2
  ∧ (fstCb env s time facidx valuep len).m_outputHandles = s.m_outputHandles
  ∧ (fstCb env s time facidx valuep len).log
      = s.log ++ boundaryLog env s time
        ++ [Action.printEvent time facidx valuep,
            Action.copy (mapIndex env.defaultSignal s.m_inputHandles facidx).1.signal len]

/-- The event is handled as an output: its value is packed at the `expected` pointer of
`m_outputHandles[facidx]`, the input handle map is not touched, and the value write in
the log is a write to that pointer. -/
def treatedAsOutput (env : Env) (s : State) (time facidx : Nat) (valuep : List Nat)
    (len : Nat) : Prop :=
  (fstCb env s time facidx valuep len).mem
      = copyValue (memAfterStep env s time)
          (mapIndex env.defaultSignal s.m_outputHandles facidx).1.expected valuep len
  ∧ (fstCb env s time facidx valuep len).m_outputHandles
      = (mapIndex env.defaultSignal s.m_outputHandles facidx).2
  ∧ (fstCb env s time facidx valuep len).m_inputHandles = s.m_inputHandles
  ∧ (fstCb env s time facidx valuep len).log
      = s.log ++ boundaryLog env s time
        ++ [Action.printEvent time facidx valuep,
            Action.copy (mapIndex env.defaultSignal s.m_outputHandles facidx).1.expected len]

/-- The engine after `createMod()` and `addSignals()`: the registry as the session's
registrations leave it. -/
def registered (env : Env) (w : Session) (s : State) : State :=
  w.signals.foldl register (createMod env s)

/-! ## Concrete scenarios -/

/-- Scenario S1 (identity passthrough): the model's `eval` copies the input `top.a`
(address 0) to the output `top.y` (address 1); the build has tracing on or off. -/
def s1Env (vmTrace : Bool) : Env :=
  { VM_TRACE := vmTrace
    modelEval := fun mem => mem.store 1 (mem 0)
    modelFinal := fun mem => mem
    defaultSignal := { bits := 0, signal := 0, expected := 0 }
    defaultVar := { fullName := "", length := 0 } }

/-- Scenario S1 after `init`: the 1-bit input `top.a` is handle 1 at address 0, the 1-bit
output `top.y` is handle 2 at address 1 with its expected buffer at address 2; the
reader's start time is 0, memory is clear and a trace sink is open. -/
def s1State : State :=
  { m_time := 0
    m_simTime := 0
    m_inputNames := [("top.a", { bits := 1, signal := 0, expected := 0 })]
    m_outputNames := [("top.y", { bits := 1, signal := 1, expected := 0 })]
    m_inputs := [(1, { fullName := "top.a", length := 1 })]
    m_outputs := [(2, { fullName := "top.y", length := 1 })]
    m_inputHandles := [(1, { bits := 1, signal := 0, expected := 0 })]
    m_outputHandles := [(2, { bits := 1, signal := 1, expected := 2 })]
    m_tfp := true
    mem := fun _ => 0
    log := [] }

/-- The stream of scenario S1: `(t=0, a, "1")`, `(t=10, a, "0")`, values null-terminated. -/
def s1Stream : List ReaderCall :=
  [ReaderCall.varlen 0 1 (some [49, 0]) 1, ReaderCall.varlen 10 1 (some [48, 0]) 1]

/-- The state of scenario S1 when the current time has reached 10. -/
def s1StateAt10 : State := { s1State with m_time := 10, m_simTime := 10 }


/-- The 12-character value `"100000000001"` of scenario S3, as ASCII codes. -/
def s3Value : List Nat := [49, 48, 48, 48, 48, 48, 48, 48, 48, 48, 48, 49]

/-- Scenario S1 with no output registered. -/
def s1InputsOnly : State := { s1State with m_outputHandles := [] }

/-- Scenario S1 as a session: `top.a` (1 bit, at address 0) is registered as an input and
`top.y` (1 bit, at address 1) as an output; the reader knows them as handles 1 and 2 with
width 1; the start time is 0; the expected buffer is allocated at address 2. -/
def s1Session : Session :=
  { signals := [{ isInput := true, fullName := "top.a", signal := 0, size := 1 },
                { isInput := false, fullName := "top.y", signal := 1, size := 1 }]
    inputs := [(1, { fullName := "top.a", length := 1 })]
    outputs := [(2, { fullName := "top.y", length := 1 })]
    startTime := 0
    newBuffer := fun _ _ => 2 }

/-- Memory before `init` in scenario S1: the byte at address 2, where the expected buffer
will be allocated, holds `e`; the model's bytes are clear. -/
def s1Memory (e : Nat) : Mem := fun a => if a = 2 then e else 0

/-- The full run of scenario S1 over a stream: `init`, then `replay` with a reader that
delivers the stream and completes. -/
def s1Run (vmTrace : Bool) (e : Nat) (stream : List ReaderCall) : State :=
  (replay (s1Env vmTrace) (init (s1Env vmTrace) s1Session (freshState (s1Memory e))).state
    { calls := stream, ret := 1 }).1

/-- The stream of scenario S1 together with the recorded values of the output `top.y`. -/
def s1StreamWithOutputs : List ReaderCall :=
  [ReaderCall.varlen 0 1 (some [49, 0]) 1, ReaderCall.varlen 0 2 (some [49, 0]) 1,
   ReaderCall.varlen 10 1 (some [48, 0]) 1, ReaderCall.varlen 10 2 (some [48, 0]) 1]

/-- Scenario S4: `top.x` is registered with width 8 (at address 0) and the reader reports
it, as handle 1, with width 7. -/
def s4Session : Session :=
  { signals := [{ isInput := true, fullName := "top.x", signal := 0, size := 8 }]
    inputs := [(1, { fullName := "top.x", length := 7 })]
    outputs := []
    startTime := 0
    newBuffer := fun _ _ => 100 }

/-- A stream for scenario S1 with one event, at time `2^63`: `(t=2^63, a, "1")`. -/
def s1LateStream : List ReaderCall :=
  [ReaderCall.varlen 9223372036854775808 1 (some [49, 0]) 1]

/-- Scenario S1 when the input `top.a` holds 1 (and `top.y` and its expected byte 0). -/
def s1StateA1 : State := { s1State with mem := fun a => if a = 0 then 1 else 0 }

/-- A value of 24 characters `'1'`, null-terminated. -/
def ones24 : List Nat := List.replicate 24 49 ++ [0]

/-! ## Facts about the packer -/

theorem packBits_lt (valuep : List Nat) (len lo n : Nat) :
    packBits valuep len lo n < 2 ^ n := by
  induction n with
  | zero => simp [packBits]
  | succ n ih =>
    have h1 : packBits valuep len lo n < 2 ^ (n + 1) :=
      lt_of_lt_of_le ih (Nat.pow_le_pow_right (by decide) (Nat.le_succ n))
    unfold packBits
    split
    · apply Nat.or_lt_two_pow h1
      rw [Nat.one_shiftLeft]
      exact Nat.pow_lt_pow_right (by decide) (Nat.lt_succ_self n)
    · exact h1

theorem testBit_packBits (valuep : List Nat) (len lo n j : Nat) :
    (packBits valuep len lo n).testBit j = (decide (j < n) && srcBit valuep len (lo + j)) := by
  induction n with
  | zero => simp [packBits]
  | succ n ih =>
    unfold packBits
    by_cases hs : srcBit valuep len (lo + n) = true
    · rw [if_pos hs, Nat.testBit_lor, ih, Nat.one_shiftLeft, Nat.testBit_two_pow]
      by_cases hj : j = n
      · subst hj; simp [hs]
      · have h2 : ¬ n = j := fun h => hj h.symm
        by_cases hlt : j < n
        · have : j < n + 1 := by omega
          simp [hlt, this, h2]
        · have : ¬ j < n + 1 := by omega
          simp [hlt, this, h2]
    · rw [if_neg hs, ih]
      by_cases hj : j = n
      · subst hj
        have hs2 : srcBit valuep len (lo + j) = false := by simpa using hs
        simp [hs2]
      · by_cases hlt : j < n
        · have : j < n + 1 := by omega
          simp [hlt, this]
        · have : ¬ j < n + 1 := by omega
          simp [hlt, this]

theorem copyValueIter_succ (valuep : List Nat) (len : Nat) (st : CopyState) (n : Nat) :
    copyValueIter valuep len st (n + 1)
      = copyValueBody valuep len (copyValueIter valuep len st n) n := by
  simp [copyValueIter, List.range_succ, List.foldl_append]

theorem copyValueBody_packed (valuep : List Nat) (len k : Nat) (st : CopyState)
    (hb : st.byte = packBits valuep len (8 * (k / 8)) (k % 8)) :
    (if valuep.getD (len - 1 - k) 0 = chr1 then (st.byte ||| (1 <<< (k % 8))) % 256 else st.byte)
      = packBits valuep len (8 * (k / 8)) (k % 8 + 1) := by
  have hlt : packBits valuep len (8 * (k / 8)) (k % 8 + 1) < 256 := by
    have h1 := packBits_lt valuep len (8 * (k / 8)) (k % 8 + 1)
    have h2 : 2 ^ (k % 8 + 1) ≤ 2 ^ 8 := Nat.pow_le_pow_right (by decide) (by omega)
    omega
  have hk : 8 * (k / 8) + k % 8 = k := Nat.div_add_mod k 8
  have hunf : packBits valuep len (8 * (k / 8)) (k % 8 + 1)
      = if srcBit valuep len k then
          packBits valuep len (8 * (k / 8)) (k % 8) ||| (1 <<< (k % 8))
        else packBits valuep len (8 * (k / 8)) (k % 8) := by
    conv_lhs => unfold packBits
    rw [hk]
  by_cases hv : valuep.getD (len - 1 - k) 0 = chr1
  · have hs : srcBit valuep len k = true := decide_eq_true hv
    rw [hunf, if_pos hs] at hlt
    rw [if_pos hv, hunf, if_pos hs, hb, Nat.mod_eq_of_lt hlt]
  · have hs : ¬ srcBit valuep len k = true := fun h => hv (of_decide_eq_true h)
    rw [if_neg hv, hunf, if_neg hs, hb]

theorem copyInv_step (mem : Mem) (to_ : Nat) (valuep : List Nat) (len k : Nat)
    (st : CopyState) (hk : k < len) (inv : CopyInv mem to_ valuep len k st) :
    CopyInv mem to_ valuep len (k + 1) (copyValueBody valuep len st k) := by
  have hne : k ≠ len := by omega
  have hto : st.to_ = to_ + k / 8 := by simpa [doneBytes, hne] using inv.to_eq
  have hbyte : st.byte = packBits valuep len (8 * (k / 8)) (k % 8) := by
    simpa [hne] using inv.byte_eq
  have hmem := inv.mem_eq
  have hdone : doneBytes len k = k / 8 := by simp [doneBytes, hne]
  have hP := copyValueBody_packed valuep len k st hbyte
  by_cases hw : (k + 1) % 8 = 0 ∨ k = len - 1
  · -- the iteration stores the byte
    have hd1 : doneBytes len (k + 1) = k / 8 + 1 := by
      unfold doneBytes
      split <;> omega
    have hmin : min 8 (len - 8 * (k / 8)) = k % 8 + 1 := by omega
    refine ⟨?_, ?_, ?_, ?_, ?_⟩
    · simp only [copyValueBody, if_pos hw]; rw [hd1, hto]; omega
    · simp only [copyValueBody, if_pos hw]
      by_cases hl : k + 1 = len
      · simp [hl]
      · have h8 : (k + 1) % 8 = 0 := by omega
        simp [hl, h8, packBits]
    · intro a
      simp only [copyValueBody, if_pos hw, hP, Mem.store]
      by_cases ha : a = st.to_
      · have hin : to_ ≤ a ∧ a < to_ + doneBytes len (k + 1) := by omega
        have hidx : a - to_ = k / 8 := by omega
        rw [if_pos ha, if_pos hin, hidx, hmin]
      · rw [if_neg ha, hmem a, hdone, hd1]
        by_cases hin : to_ ≤ a ∧ a < to_ + k / 8
        · have hin2 : to_ ≤ a ∧ a < to_ + (k / 8 + 1) := by omega
          rw [if_pos hin, if_pos hin2]
        · have hin2 : ¬ (to_ ≤ a ∧ a < to_ + (k / 8 + 1)) := by omega
          rw [if_neg hin, if_neg hin2]
    · simp only [copyValueBody, if_pos hw]
      rw [inv.reads_eq, List.range_succ, List.map_append]; rfl
    · simp only [copyValueBody, if_pos hw]
      rw [inv.writes_eq, hd1, hdone, List.range_succ, List.map_append, hto]; rfl
  · -- the iteration only accumulates
    have hl : k + 1 ≠ len := by omega
    have h8 : (k + 1) % 8 = k % 8 + 1 := by omega
    have hq : (k + 1) / 8 = k / 8 := by omega
    have hd1 : doneBytes len (k + 1) = k / 8 := by simp [doneBytes, hl, hq]
    refine ⟨?_, ?_, ?_, ?_, ?_⟩
    · simp only [copyValueBody, if_neg hw]; rw [hd1, hto]
    · simp only [copyValueBody, if_neg hw, hP]
      rw [if_neg hl, hq, h8]
    · intro a
      simp only [copyValueBody, if_neg hw]
      rw [hmem a, hdone, hd1]
    · simp only [copyValueBody, if_neg hw]
      rw [inv.reads_eq, List.range_succ, List.map_append]; rfl
    · simp only [copyValueBody, if_neg hw]
      rw [inv.writes_eq, hd1, hdone]

theorem copyInv_iter (mem : Mem) (to_ : Nat) (valuep : List Nat) (len k : Nat) (hk : k ≤ len) :
    CopyInv mem to_ valuep len k
      (copyValueIter valuep len
        { to_ := to_, byte := 0, mem := mem, reads := [], writes := [] } k) := by
  induction k with
  | zero =>
    have hd : doneBytes len 0 = 0 := by
      unfold doneBytes
      split <;> omega
    refine ⟨?_, ?_, ?_, ?_, ?_⟩
    · simp [copyValueIter, hd]
    · simp [copyValueIter, packBits]
    · intro a
      have : ¬ (to_ ≤ a ∧ a < to_ + doneBytes len 0) := by omega
      simp [copyValueIter, this]
    · simp [copyValueIter]
    · simp [copyValueIter, hd]
  | succ k ih =>
    rw [copyValueIter_succ]
    exact copyInv_step mem to_ valuep len k _ (by omega) (ih (by omega))

/-- The state in which `copyValue` returns. -/
theorem copyInv_run (mem : Mem) (to_ : Nat) (valuep : List Nat) (len : Nat) :
    CopyInv mem to_ valuep len len (copyValueRun mem to_ valuep len) :=
  copyInv_iter mem to_ valuep len len (Nat.le_refl len)

/-- Closed form of the memory `copyValue` leaves. -/
theorem copyValue_apply (mem : Mem) (to_ : Nat) (valuep : List Nat) (len a : Nat) :
    copyValue mem to_ valuep len a =
      if to_ ≤ a ∧ a < to_ + (len + 7) / 8 then
        packBits valuep len (8 * (a - to_)) (min 8 (len - 8 * (a - to_)))
      else mem a := by
  have h := (copyInv_run mem to_ valuep len).mem_eq a
  simpa [doneBytes, copyValue] using h

/-- Bit `i < len` of the destination is the bit the source holds for it. -/
theorem bufBit_copyValue (mem : Mem) (to_ : Nat) (valuep : List Nat) (len i : Nat)
    (hi : i < len) :
    bufBit (copyValue mem to_ valuep len) to_ i = srcBit valuep len i := by
  have hin : to_ ≤ to_ + i / 8 ∧ to_ + i / 8 < to_ + (len + 7) / 8 := by omega
  have hidx : to_ + i / 8 - to_ = i / 8 := by omega
  have hmin : i % 8 < min 8 (len - 8 * (i / 8)) := by omega
  have hk : 8 * (i / 8) + i % 8 = i := Nat.div_add_mod i 8
  rw [bufBit, copyValue_apply, if_pos hin, hidx, testBit_packBits, hk]
  simp [hmin]

/-- Bits of the last destination byte above the last source bit are clear. -/
theorem copyValue_last_byte (mem : Mem) (to_ : Nat) (valuep : List Nat) (len k : Nat)
    (hlen : 0 < len) (hk : (len - 1) % 8 < k) :
    (copyValue mem to_ valuep len (to_ + (len - 1) / 8)).testBit k = false := by
  have hin : to_ ≤ to_ + (len - 1) / 8 ∧ to_ + (len - 1) / 8 < to_ + (len + 7) / 8 := by omega
  have hidx : to_ + (len - 1) / 8 - to_ = (len - 1) / 8 := by omega
  have hmin : ¬ k < min 8 (len - 8 * ((len - 1) / 8)) := by omega
  rw [copyValue_apply, if_pos hin, hidx, testBit_packBits]
  simp [hmin]

/-- The character of the MSB-first encoding that feeds bit `i`. -/
theorem srcBit_encodeBits (b : List Bool) (i : Nat) (hi : i < b.length) :
    srcBit (encodeBits b) b.length i = b.get ⟨i, hi⟩ := by
  have hj : b.length - 1 - i < b.reverse.length := by simp; omega
  have hrev : b.reverse[b.length - 1 - i]? = some (b.get ⟨i, hi⟩) := by
    rw [List.getElem?_reverse (by omega)]
    have : b.length - 1 - (b.length - 1 - i) = i := by omega
    rw [this, List.getElem?_eq_getElem hi]
    rfl
  have hget : (encodeBits b).getD (b.length - 1 - i) 0
      = if b.get ⟨i, hi⟩ then chr1 else chr0 := by
    rw [encodeBits, List.getD_eq_getElem?_getD, List.getElem?_map, hrev]
    rfl
  rw [srcBit, hget]
  cases b.get ⟨i, hi⟩ <;> simp [chr0, chr1]

/-! ## Facts about the maps and the output check -/

theorem mapFind_mapInsert_ne {α : Type} (m : List (Nat × α)) (k k' : Nat) (v : α)
    (hne : k' ≠ k) : mapFind (mapInsert m k v) k' = mapFind m k' := by
  induction m with
  | nil =>
    have : ¬ k = k' := fun h => hne h.symm
    simp [mapInsert, mapFind, this]
  | cons hd tl ih =>
    obtain ⟨k0, v0⟩ := hd
    unfold mapInsert
    by_cases h1 : k < k0
    · have : ¬ k = k' := fun h => hne h.symm
      rw [if_pos h1]
      conv_lhs => unfold mapFind
      rw [if_neg this]
    · rw [if_neg h1]
      by_cases h2 : k = k0
      · rw [if_pos h2]
      · rw [if_neg h2]
        unfold mapFind
        rw [ih]

theorem mapFind_mapInsert_self {α : Type} (m : List (Nat × α)) (k : Nat) (v : α)
    (hnone : mapFind m k = none) : mapFind (mapInsert m k v) k = some v := by
  induction m with
  | nil => simp [mapInsert, mapFind]
  | cons hd tl ih =>
    obtain ⟨k0, v0⟩ := hd
    have hk0 : ¬ k0 = k := by
      intro h
      simp [mapFind, h] at hnone
    have htl : mapFind tl k = none := by
      simpa [mapFind, hk0] using hnone
    unfold mapInsert
    by_cases h1 : k < k0
    · rw [if_pos h1]; simp [mapFind]
    · have h2 : ¬ k = k0 := fun h => hk0 h.symm
      rw [if_neg h1, if_neg h2]
      unfold mapFind
      rw [if_neg hk0, ih htl]

theorem fullNameOf_mapIndex_fst (env : Env) (m : List (Nat × FstVar)) (k : Nat) :
    (mapIndex env.defaultVar m k).1.fullName = fullNameOf env m k := by
  unfold mapIndex fullNameOf
  cases mapFind m k <;> rfl

theorem fullNameOf_mapIndex_snd (env : Env) (m : List (Nat × FstVar)) (k : Nat) :
    fullNameOf env (mapIndex env.defaultVar m k).2 = fullNameOf env m := by
  funext k'
  unfold mapIndex
  cases hk : mapFind m k with
  | some v => rfl
  | none =>
    simp only
    by_cases hkk : k' = k
    · subst hkk
      simp [fullNameOf, mapFind_mapInsert_self m k' env.defaultVar hk, hk]
    · simp [fullNameOf, mapFind_mapInsert_ne m k k' env.defaultVar hkk]

theorem memcmp_ne_zero_iff (mem : Mem) (p q n : Nat) :
    memcmp mem p q n ≠ 0 ↔ ∃ i, i < n ∧ mem (p + i) ≠ mem (q + i) := by
  induction n generalizing p q with
  | zero => simp [memcmp]
  | succ n ih =>
    unfold memcmp
    by_cases h : mem p = mem q
    · rw [if_pos h, ih]
      constructor
      · rintro ⟨i, hi, hne⟩
        refine ⟨i + 1, by omega, ?_⟩
        have e1 : p + (i + 1) = p + 1 + i := by omega
        have e2 : q + (i + 1) = q + 1 + i := by omega
        rw [e1, e2]; exact hne
      · rintro ⟨i, hi, hne⟩
        cases i with
        | zero => exact absurd h hne
        | succ j =>
          refine ⟨j, by omega, ?_⟩
          have e1 : p + (j + 1) = p + 1 + j := by omega
          have e2 : q + (j + 1) = q + 1 + j := by omega
          rw [← e1, ← e2]; exact hne
    · rw [if_neg h]
      constructor
      · intro _
        exact ⟨0, by omega, h⟩
      · intro _ hz
        apply h
        have : (mem p : Int) = (mem q : Int) := by omega
        exact_mod_cast this

theorem memcmp_differs (s : State) (it : Nat × FstSignal) :
    memcmp s.mem it.2.expected it.2.signal ((it.2.bits + 7) / 8) ≠ 0 ↔ differs s.mem it.2 :=
  memcmp_ne_zero_iff s.mem it.2.expected it.2.signal ((it.2.bits + 7) / 8)

theorem CheckFrame.refl (s : State) : CheckFrame s s :=
  ⟨rfl, rfl, rfl, rfl, rfl, rfl, rfl, rfl, rfl⟩

theorem CheckFrame.trans {s1 s2 s3 : State} (h12 : CheckFrame s1 s2) (h23 : CheckFrame s2 s3) :
    CheckFrame s1 s3 :=
  ⟨h23.m_time.trans h12.m_time, h23.m_simTime.trans h12.m_simTime,
    h23.m_inputNames.trans h12.m_inputNames, h23.m_outputNames.trans h12.m_outputNames,
    h23.m_inputs.trans h12.m_inputs, h23.m_inputHandles.trans h12.m_inputHandles,
    h23.m_outputHandles.trans h12.m_outputHandles, h23.m_tfp.trans h12.m_tfp,
    h23.mem.trans h12.mem⟩

/-- One iteration of the output check: what it appends and what it keeps. -/
theorem outputCheckBody_spec (env : Env) (s : State) (it : Nat × FstSignal) :
    CheckFrame s (outputCheckBody env s it)
    ∧ (outputCheckBody env s it).log
        = s.log ++ dueReports env s.mem s.m_outputs s.m_time [it]
    ∧ fullNameOf env (outputCheckBody env s it).m_outputs = fullNameOf env s.m_outputs := by
  by_cases hd : differs s.mem it.2
  · have hm := (memcmp_differs s it).mpr hd
    refine ⟨?_, ?_, ?_⟩
    · simp only [outputCheckBody, if_pos hm]
      exact ⟨rfl, rfl, rfl, rfl, rfl, rfl, rfl, rfl, rfl⟩
    · simp [outputCheckBody, hm, dueReports, hd, fullNameOf_mapIndex_fst]
    · simp [outputCheckBody, hm, fullNameOf_mapIndex_snd]
  · have hm : ¬ memcmp s.mem it.2.expected it.2.signal ((it.2.bits + 7) / 8) ≠ 0 :=
      fun h => hd ((memcmp_differs s it).mp h)
    refine ⟨?_, ?_, ?_⟩
    · simp only [outputCheckBody, if_neg hm]
      exact CheckFrame.refl s
    · simp [outputCheckBody, hm, dueReports, hd]
    · simp [outputCheckBody, hm]

theorem dueReports_cons (env : Env) (mem : Mem) (outputs : List (Nat × FstVar)) (time : Nat)
    (it : Nat × FstSignal) (rest : List (Nat × FstSignal)) :
    dueReports env mem outputs time (it :: rest)
      = dueReports env mem outputs time [it] ++ dueReports env mem outputs time rest := by
  unfold dueReports
  by_cases hd : differs mem it.2 <;> simp [List.filter_cons, hd]

theorem dueReports_congr (env : Env) (mem : Mem) (o1 o2 : List (Nat × FstVar)) (time : Nat)
    (handles : List (Nat × FstSignal)) (h : fullNameOf env o1 = fullNameOf env o2) :
    dueReports env mem o1 time handles = dueReports env mem o2 time handles := by
  unfold dueReports
  rw [h]

/-- The loop of the output check over any list of descriptors. -/
theorem outputCheck_foldl (env : Env) (handles : List (Nat × FstSignal)) (s : State) :
    CheckFrame s (handles.foldl (outputCheckBody env) s)
    ∧ (handles.foldl (outputCheckBody env) s).log
        = s.log ++ dueReports env s.mem s.m_outputs s.m_time handles
    ∧ fullNameOf env (handles.foldl (outputCheckBody env) s).m_outputs
        = fullNameOf env s.m_outputs := by
  induction handles generalizing s with
  | nil => exact ⟨CheckFrame.refl s, by simp [dueReports], rfl⟩
  | cons it rest ih =>
    obtain ⟨f1, l1, n1⟩ := outputCheckBody_spec env s it
    obtain ⟨f2, l2, n2⟩ := ih (outputCheckBody env s it)
    rw [List.foldl_cons]
    refine ⟨f1.trans f2, ?_, n2.trans n1⟩
    rw [l2, l1, f1.mem, f1.m_time, dueReports_congr env s.mem _ _ s.m_time rest n1,
      dueReports_cons env s.mem s.m_outputs s.m_time it rest, List.append_assoc]

/-- Closed form of `outputCheck`. -/
theorem outputCheck_spec (env : Env) (s : State) :
    CheckFrame s (outputCheck env s)
    ∧ (outputCheck env s).log
        = s.log ++ dueReports env s.mem s.m_outputs s.m_time s.m_outputHandles
    ∧ fullNameOf env (outputCheck env s).m_outputs = fullNameOf env s.m_outputs :=
  outputCheck_foldl env s.m_outputHandles s

/-! ## Facts about the event handler -/

theorem eval_spec (env : Env) (s : State) :
    (eval env s).m_time = s.m_time ∧ (eval env s).m_simTime = s.m_simTime
    ∧ (eval env s).m_tfp = s.m_tfp
    ∧ (eval env s).m_inputHandles = s.m_inputHandles
    ∧ (eval env s).m_outputHandles = s.m_outputHandles
    ∧ (eval env s).mem = env.modelEval s.mem
    ∧ (eval env s).log = s.log ++ [Action.eval s.m_time]
        ++ dueReports env (env.modelEval s.mem) s.m_outputs s.m_time s.m_outputHandles := by
  obtain ⟨f, l, _⟩ := outputCheck_spec env
    { s with mem := env.modelEval s.mem, log := s.log ++ [Action.eval s.m_time] }
  exact ⟨f.m_time, f.m_simTime, f.m_tfp, f.m_inputHandles, f.m_outputHandles, f.mem, l⟩

theorem trace_spec (env : Env) (s : State) :
    (trace env s).m_time = s.m_time ∧ (trace env s).m_simTime = s.m_simTime
    ∧ (trace env s).m_tfp = s.m_tfp
    ∧ (trace env s).m_inputHandles = s.m_inputHandles
    ∧ (trace env s).m_outputHandles = s.m_outputHandles
    ∧ (trace env s).mem = s.mem
    ∧ (trace env s).log = s.log ++ traceSample env s := by
  cases h1 : env.VM_TRACE <;> cases h2 : s.m_tfp <;> simp [trace, traceSample, h1, h2]

theorem traceSample_congr (env : Env) (s s' : State) (h1 : s'.m_tfp = s.m_tfp)
    (h2 : s'.m_simTime = s.m_simTime) : traceSample env s' = traceSample env s := by
  unfold traceSample
  rw [h1, h2]

theorem fstCbStep_spec (env : Env) (s : State) (time facidx : Nat) (valuep : List Nat) :
    (fstCbStep env s time facidx valuep).m_time = time
    ∧ (fstCbStep env s time facidx valuep).m_simTime
        = (if s.m_time ≠ time then time else s.m_simTime)
    ∧ (fstCbStep env s time facidx valuep).m_tfp = s.m_tfp
    ∧ (fstCbStep env s time facidx valuep).m_inputHandles = s.m_inputHandles
    ∧ (fstCbStep env s time facidx valuep).m_outputHandles = s.m_outputHandles
    ∧ (fstCbStep env s time facidx valuep).mem
        = (if s.m_time ≠ time then env.modelEval s.mem else s.mem)
    ∧ (fstCbStep env s time facidx valuep).log
        = s.log ++ boundaryLog env s time ++ [Action.printEvent time facidx valuep] := by
  obtain ⟨_, e2, e3, e4, e5, e6, e7⟩ := eval_spec env s
  obtain ⟨_, _, t3, t4, t5, t6, t7⟩ := trace_spec env (eval env s)
  by_cases h : s.m_time ≠ time
  · have hstep : fstCbStep env s time facidx valuep =
        { trace env (eval env s) with
          m_time := time
          m_simTime := time
          log := (trace env (eval env s)).log ++ [Action.printEvent time facidx valuep] } := by
      simp [fstCbStep, h]
    rw [hstep, boundaryLog, if_pos h, if_pos h, if_pos h]
    refine ⟨rfl, rfl, t3.trans e3, t4.trans e4, t5.trans e5, t6.trans e6, ?_⟩
    show (trace env (eval env s)).log ++ [Action.printEvent time facidx valuep] = _
    rw [t7, e7, traceSample_congr env s (eval env s) e3 e2]
    simp only [List.append_assoc]
  · have h' : s.m_time = time := not_not.mp h
    have hstep : fstCbStep env s time facidx valuep =
        { s with log := s.log ++ [Action.printEvent time facidx valuep] } := by
      simp [fstCbStep, h']
    rw [hstep, boundaryLog, if_neg h, if_neg h, if_neg h]
    refine ⟨h', rfl, rfl, rfl, rfl, rfl, ?_⟩
    show s.log ++ [Action.printEvent time facidx valuep] = _
    simp

/-- What one call of `fstCb` does, in order. -/
theorem fstCb_spec (env : Env) (s : State) (time facidx : Nat) (valuep : List Nat) (len : Nat) :
    ∃ dst,
      (fstCb env s time facidx valuep len).log
        = s.log ++ boundaryLog env s time
            ++ [Action.printEvent time facidx valuep, Action.copy dst len]
      ∧ (fstCb env s time facidx valuep len).m_time = time
      ∧ (fstCb env s time facidx valuep len).m_simTime
          = (if s.m_time ≠ time then time else s.m_simTime)
      ∧ (fstCb env s time facidx valuep len).m_tfp = s.m_tfp
      ∧ (fstCb env s time facidx valuep len).mem
          = copyValue (if s.m_time ≠ time then env.modelEval s.mem else s.mem)
              dst valuep len := by
  obtain ⟨c1, c2, c3, _, _, c6, c7⟩ := fstCbStep_spec env s time facidx valuep
  unfold fstCb
  simp only
  split
  · refine ⟨(mapIndex env.defaultSignal
        (fstCbStep env s time facidx valuep).m_inputHandles facidx).1.signal, ?_, ?_, ?_, ?_, ?_⟩
    · simp only [handleInput]; rw [c7]; simp
    · simp only [handleInput]; exact c1
    · simp only [handleInput]; exact c2
    · simp only [handleInput]; exact c3
    · simp only [handleInput]; rw [c6]
  · refine ⟨(mapIndex env.defaultSignal
        (fstCbStep env s time facidx valuep).m_outputHandles facidx).1.expected, ?_, ?_, ?_, ?_, ?_⟩
    · simp only [handleOutput]; rw [c7]; simp
    · simp only [handleOutput]; exact c1
    · simp only [handleOutput]; exact c2
    · simp only [handleOutput]; exact c3
    · simp only [handleOutput]; rw [c6]

/-- Every callback of the reader reaches `fstCb` with the time it carries. -/
theorem deliver_eq_fstCb (env : Env) (s : State) (c : ReaderCall) :
    ∃ facidx valuep len, deliver env s c = fstCb env s c.time facidx valuep len := by
  cases c with
  | varlen t h v n => exact ⟨h, v.getD [], n, rfl⟩
  | fixed t h v => exact ⟨h, v.getD [], _, rfl⟩

/-! ## Facts about logs and runs -/

theorem evalTimes_append (a b : List Action) :
    evalTimes (a ++ b) = evalTimes a ++ evalTimes b := by
  induction a with
  | nil => rfl
  | cons x rest ih => cases x <;> simp [evalTimes, ih]

theorem evalTimes_dueReports (env : Env) (mem : Mem) (outputs : List (Nat × FstVar))
    (time : Nat) (handles : List (Nat × FstSignal)) :
    evalTimes (dueReports env mem outputs time handles) = [] := by
  unfold dueReports
  induction handles.filter (fun it => decide (differs mem it.2)) with
  | nil => rfl
  | cons x rest ih => simpa [evalTimes] using ih

theorem evalTimes_traceSample (env : Env) (s : State) : evalTimes (traceSample env s) = [] := by
  unfold traceSample
  split <;> rfl

theorem evalTimes_boundaryLog (env : Env) (s : State) (time : Nat) :
    evalTimes (boundaryLog env s time) = if s.m_time ≠ time then [s.m_time] else [] := by
  unfold boundaryLog
  split
  · simp [evalTimes_append, evalTimes_dueReports, evalTimes_traceSample, evalTimes]
  · rfl

theorem boundaryLog_no_copy (env : Env) (s : State) (time : Nat) :
    ∀ x ∈ boundaryLog env s time, ∀ d n, x ≠ Action.copy d n := by
  intro x hx d n
  unfold boundaryLog at hx
  split at hx
  · simp only [List.mem_append, List.mem_singleton] at hx
    rcases hx with (hx | hx) | hx
    · rw [hx]; exact fun h => Action.noConfusion h
    · unfold dueReports at hx
      obtain ⟨it, _, rfl⟩ := List.mem_map.mp hx
      exact fun h => Action.noConfusion h
    · unfold traceSample at hx
      split at hx
      · rw [List.mem_singleton.mp hx]; exact fun h => Action.noConfusion h
      · exact absurd hx (List.not_mem_nil _)
  · exact absurd hx (List.not_mem_nil _)

theorem evalsBeforeCopies_append_copy (A B : List Action) (d n k : Nat)
    (hA : ∀ x ∈ A, ∀ d n, x ≠ Action.copy d n) :
    evalsBeforeCopies (A ++ Action.copy d n :: B) k
      = (k + (evalTimes A).length) :: evalsBeforeCopies B 0 := by
  induction A generalizing k with
  | nil => simp [evalsBeforeCopies, evalTimes]
  | cons x rest ih =>
    have hrest : ∀ y ∈ rest, ∀ d n, y ≠ Action.copy d n :=
      fun y hy => hA y (List.mem_cons_of_mem x hy)
    have hx := hA x (List.mem_cons_self x rest)
    cases x with
    | copy d' n' => exact absurd rfl (hx d' n')
    | eval t =>
      rw [List.cons_append]
      simp only [evalsBeforeCopies, evalTimes, List.length_cons]
      rw [ih (k + 1) hrest]
      congr 1
      omega
    | miscompare a b =>
      rw [List.cons_append]
      simp only [evalsBeforeCopies, evalTimes]
      exact ih k hrest
    | dump t =>
      rw [List.cons_append]
      simp only [evalsBeforeCopies, evalTimes]
      exact ih k hrest
    | final =>
      rw [List.cons_append]
      simp only [evalsBeforeCopies, evalTimes]
      exact ih k hrest
    | printEvent a b c =>
      rw [List.cons_append]
      simp only [evalsBeforeCopies, evalTimes]
      exact ih k hrest
    | iterError =>
      rw [List.cons_append]
      simp only [evalsBeforeCopies, evalTimes]
      exact ih k hrest

/-- What one callback adds to the log: its `eval` times and its single value write. -/
theorem deliver_spec (env : Env) (s : State) (c : ReaderCall) :
    ∃ E, (deliver env s c).log = s.log ++ E
      ∧ evalTimes E = (if s.m_time ≠ c.time then [s.m_time] else [])
      ∧ (∀ B k, evalsBeforeCopies (E ++ B) k
          = (k + (if s.m_time ≠ c.time then 1 else 0)) :: evalsBeforeCopies B 0)
      ∧ (deliver env s c).m_time = c.time
      ∧ (deliver env s c).m_tfp = s.m_tfp
      ∧ (s.m_simTime = s.m_time → (deliver env s c).m_simTime = (deliver env s c).m_time) := by
  obtain ⟨facidx, valuep, len, hc⟩ := deliver_eq_fstCb env s c
  obtain ⟨dst, hlog, htime, hsim, htfp, _⟩ := fstCb_spec env s c.time facidx valuep len
  rw [hc]
  refine ⟨boundaryLog env s c.time
      ++ [Action.printEvent c.time facidx valuep, Action.copy dst len], ?_, ?_, ?_,
    htime, htfp, ?_⟩
  · rw [hlog, List.append_assoc]
  · rw [evalTimes_append, evalTimes_boundaryLog]
    simp [evalTimes]
  · intro B k
    have hno : ∀ x ∈ boundaryLog env s c.time ++ [Action.printEvent c.time facidx valuep],
        ∀ d n, x ≠ Action.copy d n := by
      intro x hx d n
      rcases List.mem_append.mp hx with hx | hx
      · exact boundaryLog_no_copy env s c.time x hx d n
      · rw [List.mem_singleton.mp hx]; exact fun h => Action.noConfusion h
    have hsplit : boundaryLog env s c.time
        ++ [Action.printEvent c.time facidx valuep, Action.copy dst len] ++ B
        = (boundaryLog env s c.time ++ [Action.printEvent c.time facidx valuep])
          ++ Action.copy dst len :: B := by simp
    rw [hsplit, evalsBeforeCopies_append_copy _ B dst len k hno, evalTimes_append,
      evalTimes_boundaryLog]
    split <;> simp [evalTimes]
  · intro h
    rw [hsim, htime]
    split
    · rfl
    · rename_i hne
      rw [h]; exact not_not.mp hne

/-- What a sequence of callbacks adds to the log: the `eval` times and the value writes. -/
theorem deliverAll_spec (env : Env) (calls : List ReaderCall) (s : State) :
    ∃ L, (deliverAll env s calls).log = s.log ++ L
      ∧ evalTimes L = boundaries s.m_time (calls.map ReaderCall.time)
      ∧ evalsBeforeCopies L 0 = changes s.m_time (calls.map ReaderCall.time)
      ∧ (deliverAll env s calls).m_time = lastTime s.m_time (calls.map ReaderCall.time)
      ∧ (deliverAll env s calls).m_tfp = s.m_tfp
      ∧ (s.m_simTime = s.m_time →
          (deliverAll env s calls).m_simTime = (deliverAll env s calls).m_time) := by
  induction calls generalizing s with
  | nil => exact ⟨[], by simp [deliverAll], rfl, rfl, rfl, rfl, fun h => h⟩
  | cons c rest ih =>
    obtain ⟨E, hlog, hev, hcp, htime, htfp, hsim⟩ := deliver_spec env s c
    obtain ⟨L, ilog, iev, icp, itime, itfp, isim⟩ := ih (deliver env s c)
    have hfold : deliverAll env s (c :: rest) = deliverAll env (deliver env s c) rest := rfl
    rw [hfold]
    refine ⟨E ++ L, ?_, ?_, ?_, ?_, itfp.trans htfp, fun h => isim (hsim h)⟩
    · rw [ilog, hlog, List.append_assoc]
    · rw [evalTimes_append, hev, iev, htime]
      simp only [List.map_cons, boundaries]
      split <;> simp
    · rw [hcp L 0, icp, htime]
      simp [changes]
    · rw [itime, htime]; rfl

theorem changes_length (prev : Nat) (ts : List Nat) : (changes prev ts).length = ts.length := by
  induction ts generalizing prev with
  | nil => rfl
  | cons t rest ih => simp [changes, ih]

theorem changes_getElem? (prev : Nat) (ts : List Nat) (i : Nat) (h : i + 1 < ts.length) :
    (changes prev ts)[i + 1]?
      = some (if ts.get ⟨i, by omega⟩ = ts.get ⟨i + 1, h⟩ then 0 else 1) := by
  induction ts generalizing prev i with
  | nil => simp at h
  | cons t rest ih =>
    cases rest with
    | nil => simp at h
    | cons t' rest' =>
      cases i with
      | zero =>
        by_cases hc : t = t' <;> simp [changes, hc]
      | succ j =>
        have hj : j + 1 < (t' :: rest').length := by simpa using h
        have := ih t j hj
        simp only [changes, List.getElem?_cons_succ] at this ⊢
        rw [this]
        rfl

/-- In a run over non-decreasing times, `eval` is called once per distinct time. -/
theorem boundaries_eq_dedup (prev : Nat) (ts : List Nat)
    (hs : List.Sorted (fun a b => a ≤ b) (prev :: ts)) :
    boundaries prev ts ++ [lastTime prev ts] = (prev :: ts).dedup := by
  induction ts generalizing prev with
  | nil => simp [boundaries, lastTime]
  | cons t rest ih =>
    obtain ⟨h1, h2⟩ := List.pairwise_cons.mp hs
    have ht : prev ≤ t := h1 t (List.mem_cons_self t rest)
    obtain ⟨h3, _⟩ := List.pairwise_cons.mp h2
    by_cases hc : prev = t
    · subst hc
      rw [List.dedup_cons_of_mem (List.mem_cons_self prev rest), ← ih prev h2]
      simp [boundaries, lastTime]
    · have hnot : prev ∉ t :: rest := by
        intro hmem
        rcases List.mem_cons.mp hmem with h | h
        · exact hc h
        · have := h3 prev h
          omega
      rw [List.dedup_cons_of_not_mem hnot, ← ih t h2]
      simp [boundaries, lastTime, hc]

/-- The log of a run of `replay` that the reader completes. -/
theorem replay_ok_spec (env : Env) (s : State) (r : ReaderRun) (hok : r.ret ≠ 0) :
    (replay env s r).2 = Exit.returned 0
    ∧ (replay env s r).1.log
        = (deliverAll env s r.calls).log
          ++ [Action.eval (deliverAll env s r.calls).m_time]
          ++ dueReports env (env.modelEval (deliverAll env s r.calls).mem)
              (deliverAll env s r.calls).m_outputs (deliverAll env s r.calls).m_time
              (deliverAll env s r.calls).m_outputHandles
          ++ traceSample env (deliverAll env s r.calls)
          ++ [Action.final] := by
  obtain ⟨_, e2, e3, _, _, _, e7⟩ := eval_spec env (deliverAll env s r.calls)
  obtain ⟨_, _, _, _, _, _, t7⟩ := trace_spec env (eval env (deliverAll env s r.calls))
  have hrep : replay env s r
      = (final env (trace env (eval env (deliverAll env s r.calls))), Exit.returned 0) := by
    simp [replay, hok]
  rw [hrep]
  refine ⟨rfl, ?_⟩
  show (trace env (eval env (deliverAll env s r.calls))).log ++ [Action.final] = _
  rw [t7, e7, traceSample_congr env _ _ e3 e2]

/-- The times at which a completed run calls `eval`. -/
theorem replay_evalTimes (env : Env) (s : State) (r : ReaderRun) (hok : r.ret ≠ 0) :
    ∃ L, (replay env s r).1.log = s.log ++ L
      ∧ evalTimes L = boundaries s.m_time (r.calls.map ReaderCall.time)
          ++ [lastTime s.m_time (r.calls.map ReaderCall.time)] := by
  obtain ⟨L, hlog, hev, _, htime, _, _⟩ := deliverAll_spec env r.calls s
  obtain ⟨_, hrep⟩ := replay_ok_spec env s r hok
  refine ⟨L ++ ([Action.eval (deliverAll env s r.calls).m_time]
      ++ dueReports env (env.modelEval (deliverAll env s r.calls).mem)
          (deliverAll env s r.calls).m_outputs (deliverAll env s r.calls).m_time
          (deliverAll env s r.calls).m_outputHandles
      ++ traceSample env (deliverAll env s r.calls) ++ [Action.final]), ?_, ?_⟩
  · rw [hrep, hlog]; simp only [List.append_assoc]
  · simp only [evalTimes_append]
    rw [hev, evalTimes_dueReports, evalTimes_traceSample, htime]
    rfl

/-! ## Facts about the dispatch of `fstCb` -/

theorem fstCb_input_route (env : Env) (s : State) (time facidx : Nat) (valuep : List Nat)
    (len : Nat)
    (h : s.m_outputHandles.isEmpty = true ∨ (mapFind s.m_inputHandles facidx).isSome = true) :
    fstCb env s time facidx valuep len
      = handleInput env (fstCbStep env s time facidx valuep) facidx valuep len := by
  obtain ⟨_, _, _, c4, c5, _, _⟩ := fstCbStep_spec env s time facidx valuep
  unfold fstCb
  simp only
  rw [c4, c5, if_pos h]

theorem fstCb_output_route (env : Env) (s : State) (time facidx : Nat) (valuep : List Nat)
    (len : Nat)
    (h : ¬ (s.m_outputHandles.isEmpty = true ∨ (mapFind s.m_inputHandles facidx).isSome = true)) :
    fstCb env s time facidx valuep len
      = handleOutput env (fstCbStep env s time facidx valuep) facidx valuep len := by
  obtain ⟨_, _, _, c4, c5, _, _⟩ := fstCbStep_spec env s time facidx valuep
  unfold fstCb
  simp only
  rw [c4, c5, if_neg h]

theorem fstCbStep_mem (env : Env) (s : State) (time facidx : Nat) (valuep : List Nat) :
    (fstCbStep env s time facidx valuep).mem = memAfterStep env s time :=
  (fstCbStep_spec env s time facidx valuep).2.2.2.2.2.1

/-- The effect of an event that `fstCb` hands to `handleInput`. -/
theorem fstCb_input_fields (env : Env) (s : State) (time facidx : Nat) (valuep : List Nat)
    (len : Nat)
    (h : s.m_outputHandles.isEmpty = true ∨ (mapFind s.m_inputHandles facidx).isSome = true) :
    (fstCb env s time facidx valuep len).mem
        = copyValue (memAfterStep env s time)
            (mapIndex env.defaultSignal s.m_inputHandles facidx).1.signal valuep len
    ∧ (fstCb env s time facidx valuep len).m_inputHandles
        = (mapIndex env.defaultSignal s.m_inputHandles facidx).2
    ∧ (fstCb env s time facidx valuep len).m_outputHandles = s.m_outputHandles
    ∧ (fstCb env s time facidx valuep len).log
        = s.log ++ boundaryLog env s time
          ++ [Action.printEvent time facidx valuep,
              Action.copy (mapIndex env.defaultSignal s.m_inputHandles facidx).1.signal len] := by
  obtain ⟨_, _, _, c4, c5, _, c7⟩ := fstCbStep_spec env s time facidx valuep
  rw [fstCb_input_route env s time facidx valuep len h]
  simp only [handleInput]
  rw [c4, c5, c7, fstCbStep_mem]
  exact ⟨rfl, rfl, rfl, by simp⟩

/-- The effect of an event that `fstCb` hands to `handleOutput`. -/
theorem fstCb_output_fields (env : Env) (s : State) (time facidx : Nat) (valuep : List Nat)
    (len : Nat)
    (h : ¬ (s.m_outputHandles.isEmpty = true ∨ (mapFind s.m_inputHandles facidx).isSome = true)) :
    (fstCb env s time facidx valuep len).mem
        = copyValue (memAfterStep env s time)
            (mapIndex env.defaultSignal s.m_outputHandles facidx).1.expected valuep len
    ∧ (fstCb env s time facidx valuep len).m_outputHandles
        = (mapIndex env.defaultSignal s.m_outputHandles facidx).2
    ∧ (fstCb env s time facidx valuep len).m_inputHandles = s.m_inputHandles
    ∧ (fstCb env s time facidx valuep len).log
        = s.log ++ boundaryLog env s time
          ++ [Action.printEvent time facidx valuep,
              Action.copy (mapIndex env.defaultSignal s.m_outputHandles facidx).1.expected len] := by
  obtain ⟨_, _, _, c4, c5, _, c7⟩ := fstCbStep_spec env s time facidx valuep
  rw [fstCb_output_route env s time facidx valuep len h]
  simp only [handleOutput]
  rw [c4, c5, c7, fstCbStep_mem]
  exact ⟨rfl, rfl, rfl, by simp⟩

theorem mapIndex_of_find {α : Type} (d : α) (m : List (Nat × α)) (k : Nat) (v : α)
    (h : mapFind m k = some v) : mapIndex d m k = (v, m) := by
  unfold mapIndex
  rw [h]

theorem mapIndex_of_not_find {α : Type} (d : α) (m : List (Nat × α)) (k : Nat)
    (h : mapFind m k = none) : mapIndex d m k = (d, mapInsert m k d) := by
  unfold mapIndex
  rw [h]

theorem isEmpty_eq_true_iff {α : Type} (l : List α) : l.isEmpty = true ↔ l = [] := by
  cases l <;> simp

/-- Bytes outside the range `copyValue` stores to keep their contents. -/
theorem copyValue_outside (mem : Mem) (to_ : Nat) (valuep : List Nat) (len a : Nat)
    (h : a < to_ ∨ to_ + (len + 7) / 8 ≤ a) :
    copyValue mem to_ valuep len a = mem a := by
  rw [copyValue_apply, if_neg (by omega)]

/-! ## Facts about repeated events -/

theorem State.ext_fields (a b : State) (h1 : a.m_time = b.m_time)
    (h2 : a.m_simTime = b.m_simTime) (h3 : a.m_inputNames = b.m_inputNames)
    (h4 : a.m_outputNames = b.m_outputNames) (h5 : a.m_inputs = b.m_inputs)
    (h6 : a.m_outputs = b.m_outputs) (h7 : a.m_inputHandles = b.m_inputHandles)
    (h8 : a.m_outputHandles = b.m_outputHandles) (h9 : a.m_tfp = b.m_tfp)
    (h10 : a.mem = b.mem) (h11 : a.log = b.log) : a = b := by
  cases a
  cases b
  simp only at h1 h2 h3 h4 h5 h6 h7 h8 h9 h10 h11
  subst h1 h2 h3 h4 h5 h6 h7 h8 h9 h10 h11
  rfl

theorem trace_frame (env : Env) (s : State) :
    (trace env s).m_inputNames = s.m_inputNames ∧ (trace env s).m_outputNames = s.m_outputNames
    ∧ (trace env s).m_inputs = s.m_inputs ∧ (trace env s).m_outputs = s.m_outputs := by
  cases h1 : env.VM_TRACE <;> cases h2 : s.m_tfp <;> simp [trace, h1, h2]

theorem eval_frame (env : Env) (s : State) :
    (eval env s).m_inputNames = s.m_inputNames ∧ (eval env s).m_outputNames = s.m_outputNames
    ∧ (eval env s).m_inputs = s.m_inputs := by
  obtain ⟨f, _, _⟩ := outputCheck_spec env
    { s with mem := env.modelEval s.mem, log := s.log ++ [Action.eval s.m_time] }
  exact ⟨f.m_inputNames, f.m_outputNames, f.m_inputs⟩

theorem fstCbStep_frame (env : Env) (s : State) (time facidx : Nat) (valuep : List Nat) :
    (fstCbStep env s time facidx valuep).m_inputNames = s.m_inputNames
    ∧ (fstCbStep env s time facidx valuep).m_outputNames = s.m_outputNames
    ∧ (fstCbStep env s time facidx valuep).m_inputs = s.m_inputs
    ∧ (fstCbStep env s time facidx valuep).m_outputs = outputsAfterStep env s time := by
  obtain ⟨e1, e2, e3⟩ := eval_frame env s
  obtain ⟨t1, t2, t3, t4⟩ := trace_frame env (eval env s)
  by_cases h : s.m_time ≠ time
  · have hstep : fstCbStep env s time facidx valuep =
        { trace env (eval env s) with
          m_time := time
          m_simTime := time
          log := (trace env (eval env s)).log ++ [Action.printEvent time facidx valuep] } := by
      simp [fstCbStep, h]
    rw [hstep, outputsAfterStep, if_pos h]
    exact ⟨t1.trans e1, t2.trans e2, t3.trans e3, t4⟩
  · have h' : s.m_time = time := not_not.mp h
    have hstep : fstCbStep env s time facidx valuep =
        { s with log := s.log ++ [Action.printEvent time facidx valuep] } := by
      simp [fstCbStep, h']
    rw [hstep, outputsAfterStep, if_neg h]
    exact ⟨rfl, rfl, rfl, rfl⟩

/-- The fields of the state that the dispatch of `fstCb` does not touch. -/
theorem fstCb_frame (env : Env) (s : State) (time facidx : Nat) (valuep : List Nat)
    (len : Nat) :
    (fstCb env s time facidx valuep len).m_inputNames = s.m_inputNames
    ∧ (fstCb env s time facidx valuep len).m_outputNames = s.m_outputNames
    ∧ (fstCb env s time facidx valuep len).m_inputs = s.m_inputs
    ∧ (fstCb env s time facidx valuep len).m_outputs = outputsAfterStep env s time := by
  obtain ⟨c1, c2, c3, c4⟩ := fstCbStep_frame env s time facidx valuep
  by_cases h : s.m_outputHandles.isEmpty = true
      ∨ (mapFind s.m_inputHandles facidx).isSome = true
  · rw [fstCb_input_route env s time facidx valuep len h]
    exact ⟨c1, c2, c3, c4⟩
  · rw [fstCb_output_route env s time facidx valuep len h]
    exact ⟨c1, c2, c3, c4⟩

theorem mapIndex_idem {α : Type} (d : α) (m : List (Nat × α)) (k : Nat) :
    mapIndex d (mapIndex d m k).2 k = mapIndex d m k := by
  cases h : mapFind m k with
  | some v =>
    rw [mapIndex_of_find d m k v h]
    exact mapIndex_of_find d m k v h
  | none =>
    rw [mapIndex_of_not_find d m k h]
    exact mapIndex_of_find d _ k d (mapFind_mapInsert_self m k d h)

theorem mapInsert_ne_nil {α : Type} (m : List (Nat × α)) (k : Nat) (v : α) :
    mapInsert m k v ≠ [] := by
  cases m with
  | nil => simp [mapInsert]
  | cons hd tl =>
    obtain ⟨k0, v0⟩ := hd
    unfold mapInsert
    split
    · simp
    · split <;> simp

theorem mapIndex_snd_ne_nil {α : Type} (d : α) (m : List (Nat × α)) (k : Nat)
    (h : m ≠ []) : (mapIndex d m k).2 ≠ [] := by
  cases hf : mapFind m k with
  | some v => rw [mapIndex_of_find d m k v hf]; exact h
  | none => rw [mapIndex_of_not_find d m k hf]; exact mapInsert_ne_nil m k d

/-- A second value of the same length packed at the same place replaces the first. -/
theorem copyValue_overwrite (mem : Mem) (to_ : Nat) (v1 v2 : List Nat) (len : Nat) :
    copyValue (copyValue mem to_ v1 len) to_ v2 len = copyValue mem to_ v2 len := by
  funext a
  rw [copyValue_apply, copyValue_apply mem to_ v2 len a]
  by_cases h : to_ ≤ a ∧ a < to_ + (len + 7) / 8
  · rw [if_pos h, if_pos h]
  · rw [if_neg h, if_neg h, copyValue_apply, if_neg h]

theorem memAfterStep_same_time (env : Env) (s : State) : memAfterStep env s s.m_time = s.mem := by
  simp [memAfterStep]

theorem outputsAfterStep_same_time (env : Env) (s : State) :
    outputsAfterStep env s s.m_time = s.m_outputs := by
  simp [outputsAfterStep]

theorem strlen_terminated (v rest : List Nat) (hv : ∀ c ∈ v, c ≠ 0) :
    strlen (v ++ 0 :: rest) = v.length := by
  unfold strlen
  induction v with
  | nil => simp
  | cons c tl ih =>
    have hc : c ≠ 0 := hv c (List.mem_cons_self c tl)
    have htl : ∀ x ∈ tl, x ≠ 0 := fun x hx => hv x (List.mem_cons_of_mem c hx)
    have ih' := ih htl
    rw [List.cons_append, List.takeWhile_cons]
    have hd : decide (c ≠ 0) = true := decide_eq_true hc
    rw [hd]
    simp only [List.length_cons, if_true]
    rw [ih']

/-! ## Facts about the reports of a run -/

theorem printedLd_of_lt (v : Nat) (h : v < 2 ^ 63) : printedLd v = (v : Int) := by
  have h1 : v % 2 ^ 64 = v := Nat.mod_eq_of_lt (by omega)
  unfold printedLd
  rw [h1, if_pos h]

theorem miscompares_append (a b : List Action) :
    miscompares (a ++ b) = miscompares a ++ miscompares b := by
  induction a with
  | nil => rfl
  | cons x rest ih => cases x <;> simp [miscompares, ih]

theorem miscompares_dueReports (env : Env) (mem : Mem) (outputs : List (Nat × FstVar))
    (time : Nat) (handles : List (Nat × FstSignal)) :
    miscompares (dueReports env mem outputs time handles)
      = (handles.filter (fun it => decide (differs mem it.2))).map
          (fun it => (fullNameOf env outputs it.1, printedLd time)) := by
  unfold dueReports
  induction handles.filter (fun it => decide (differs mem it.2)) with
  | nil => rfl
  | cons x rest ih => simpa [miscompares] using ih

theorem miscompares_traceSample (env : Env) (s : State) :
    miscompares (traceSample env s) = [] := by
  unfold traceSample
  split <;> rfl

/-- The reports one call of `fstCb` adds. -/
theorem miscompares_fstCb (env : Env) (s : State) (time facidx : Nat) (valuep : List Nat)
    (len : Nat) :
    miscompares (fstCb env s time facidx valuep len).log
      = miscompares s.log
        ++ (if s.m_time ≠ time then
              (s.m_outputHandles.filter
                (fun it => decide (differs (env.modelEval s.mem) it.2))).map
                (fun it => (fullNameOf env s.m_outputs it.1, printedLd s.m_time))
            else []) := by
  obtain ⟨dst, hlog, _⟩ := fstCb_spec env s time facidx valuep len
  rw [hlog, miscompares_append, miscompares_append, boundaryLog]
  split
  · simp [miscompares_append, miscompares_dueReports, miscompares_traceSample, miscompares]
  · simp [miscompares]

/-- The reports the step at the end of the stream adds. -/
theorem miscompares_replay (env : Env) (s : State) (r : ReaderRun) (hok : r.ret ≠ 0) :
    miscompares (replay env s r).1.log
      = miscompares (deliverAll env s r.calls).log
        ++ ((deliverAll env s r.calls).m_outputHandles.filter
              (fun it => decide (differs (env.modelEval (deliverAll env s r.calls).mem) it.2))).map
            (fun it => (fullNameOf env (deliverAll env s r.calls).m_outputs it.1,
              printedLd (deliverAll env s r.calls).m_time)) := by
  rw [(replay_ok_spec env s r hok).2]
  simp [miscompares_append, miscompares_dueReports, miscompares_traceSample, miscompares]

theorem fullNameOf_eval (env : Env) (s : State) :
    fullNameOf env (eval env s).m_outputs = fullNameOf env s.m_outputs :=
  (outputCheck_spec env
    { s with mem := env.modelEval s.mem, log := s.log ++ [Action.eval s.m_time] }).2.2

theorem fullNameOf_fstCb (env : Env) (s : State) (time facidx : Nat) (valuep : List Nat)
    (len : Nat) :
    fullNameOf env (fstCb env s time facidx valuep len).m_outputs
      = fullNameOf env s.m_outputs := by
  rw [(fstCb_frame env s time facidx valuep len).2.2.2, outputsAfterStep]
  split
  · exact fullNameOf_eval env s
  · rfl

/-- An event for a handle of the input map: where the value goes and what stays. -/
theorem fstCb_known_input (env : Env) (s : State) (time facidx : Nat) (valuep : List Nat)
    (len : Nat) (sig : FstSignal) (hin : mapFind s.m_inputHandles facidx = some sig) :
    (fstCb env s time facidx valuep len).m_time = time
    ∧ (fstCb env s time facidx valuep len).mem
        = copyValue (memAfterStep env s time) sig.signal valuep len
    ∧ (fstCb env s time facidx valuep len).m_inputHandles = s.m_inputHandles
    ∧ (fstCb env s time facidx valuep len).m_outputHandles = s.m_outputHandles := by
  have hroute : s.m_outputHandles.isEmpty = true
      ∨ (mapFind s.m_inputHandles facidx).isSome = true := Or.inr (by rw [hin]; rfl)
  obtain ⟨f1, f2, f3, _⟩ := fstCb_input_fields env s time facidx valuep len hroute
  rw [mapIndex_of_find env.defaultSignal s.m_inputHandles facidx sig hin] at f1 f2
  exact ⟨(fstCb_spec env s time facidx valuep len).choose_spec.2.1, f1, f2, f3⟩

/-- An event for a handle of the output map only: where the value goes and what stays. -/
theorem fstCb_known_output (env : Env) (s : State) (time facidx : Nat) (valuep : List Nat)
    (len : Nat) (sig : FstSignal) (hout : mapFind s.m_outputHandles facidx = some sig)
    (hin : mapFind s.m_inputHandles facidx = none) :
    (fstCb env s time facidx valuep len).m_time = time
    ∧ (fstCb env s time facidx valuep len).mem
        = copyValue (memAfterStep env s time) sig.expected valuep len
    ∧ (fstCb env s time facidx valuep len).m_inputHandles = s.m_inputHandles
    ∧ (fstCb env s time facidx valuep len).m_outputHandles = s.m_outputHandles := by
  have hne : s.m_outputHandles ≠ [] := by
    intro h
    rw [h] at hout
    simp [mapFind] at hout
  have hroute : ¬ (s.m_outputHandles.isEmpty = true
      ∨ (mapFind s.m_inputHandles facidx).isSome = true) := by
    rw [isEmpty_eq_true_iff, hin]
    simp [hne]
  obtain ⟨f1, f2, f3, _⟩ := fstCb_output_fields env s time facidx valuep len hroute
  rw [mapIndex_of_find env.defaultSignal s.m_outputHandles facidx sig hout] at f1 f2
  exact ⟨(fstCb_spec env s time facidx valuep len).choose_spec.2.1, f1, f3, f2⟩

theorem copyValue_one_bit (mem : Mem) (p c : Nat) :
    copyValue mem p [c, 0] 1 = mem.store p (if c = chr1 then 1 else 0) := by
  simp [copyValue, copyValueRun, copyValueIter, copyValueBody, List.range_succ]

theorem differs_one_byte (mem : Mem) (p q : Nat) :
    differs mem { bits := 1, signal := p, expected := q } ↔ mem q ≠ mem p := by
  show (∃ i, i < (1 + 7) / 8 ∧ mem (q + i) ≠ mem (p + i)) ↔ _
  constructor
  · rintro ⟨i, hi, hne⟩
    have : i = 0 := by omega
    subst this
    simpa using hne
  · intro h
    exact ⟨0, by decide, by simpa using h⟩

/-- The reports of a run over the stream of scenario S1, from any state laid out as in
that scenario, in terms of the byte `e` the expected buffer holds. -/
theorem s1_reports (env : Env) (S : State) (e : Nat)
    (henv : env.modelEval = fun mem => mem.store 1 (mem 0)) (ht : S.m_time = 0)
    (hi : mapFind S.m_inputHandles 1 = some { bits := 1, signal := 0, expected := 0 })
    (ho : S.m_outputHandles = [(2, { bits := 1, signal := 1, expected := 2 })])
    (hn : fullNameOf env S.m_outputs 2 = "top.y") (hl : miscompares S.log = [])
    (hm : S.mem 2 = e) :
    miscompares (replay env S { calls := s1Stream, ret := 1 }).1.log
      = (if e = 1 then [] else [("top.y", 0)]) ++ (if e = 0 then [] else [("top.y", 10)]) := by
  rw [miscompares_replay _ _ _ (by decide)]
  simp only [deliverAll, s1Stream, List.foldl, deliver, fstCallbackVarlen, Option.getD]
  obtain ⟨t1, m1, i1, o1⟩ := fstCb_known_input env S 0 1 [49, 0] 1 _ hi
  have n1 := fullNameOf_fstCb env S 0 1 [49, 0] 1
  have l1 := miscompares_fstCb env S 0 1 [49, 0] 1
  obtain ⟨t2, m2, i2, o2⟩ := fstCb_known_input env (fstCb env S 0 1 [49, 0] 1) 10 1 [48, 0] 1
    { bits := 1, signal := 0, expected := 0 } (by rw [i1]; exact hi)
  have n2 := fullNameOf_fstCb env (fstCb env S 0 1 [49, 0] 1) 10 1 [48, 0] 1
  have l2 := miscompares_fstCb env (fstCb env S 0 1 [49, 0] 1) 10 1 [48, 0] 1
  have hmem1 : (fstCb env S 0 1 [49, 0] 1).mem = S.mem.store 0 1 := by
    rw [m1, copyValue_one_bit]
    simp [memAfterStep, ht, chr1]
  have hmem2 : (fstCb env (fstCb env S 0 1 [49, 0] 1) 10 1 [48, 0] 1).mem
      = ((S.mem.store 0 1).store 1 1).store 0 0 := by
    rw [m2, copyValue_one_bit]
    simp [memAfterStep, t1, henv, hmem1, chr1, Mem.store]
  simp only [l2, l1, t1, t2, o2, o1, ho, n2, n1, hmem1, hmem2, hl, ht, henv]
  simp only [List.filter, differs_one_byte, Mem.store, hm, hn]
  have p0 : printedLd 0 = 0 := by decide
  have p10 : printedLd 10 = 10 := by decide
  by_cases h1 : e = 1
  · subst h1
    simp [hn, p10]
  · by_cases h0 : e = 0
    · subst h0
      simp [hn, p0]
    · simp [h1, h0, hn, p0, p10]

/-- The state `init` leaves in scenario S1. -/
theorem s1_init_state (b : Bool) (e : Nat) :
    (init (s1Env b) s1Session (freshState (s1Memory e))).state
      = { s1State with mem := s1Memory e, m_tfp := b } := by
  cases b <;> rfl

/-- The reports of a run over the stream of scenario S1 extended with the recorded values
of `top.y`, from any state laid out as in that scenario: none. -/
theorem s1_reports_with_outputs (env : Env) (S : State)
    (henv : env.modelEval = fun mem => mem.store 1 (mem 0)) (ht : S.m_time = 0)
    (hi : mapFind S.m_inputHandles 1 = some { bits := 1, signal := 0, expected := 0 })
    (hi2 : mapFind S.m_inputHandles 2 = none)
    (ho : S.m_outputHandles = [(2, { bits := 1, signal := 1, expected := 2 })])
    (hl : miscompares S.log = []) :
    miscompares (replay env S { calls := s1StreamWithOutputs, ret := 1 }).1.log = [] := by
  rw [miscompares_replay _ _ _ (by decide)]
  simp only [deliverAll, s1StreamWithOutputs, List.foldl, deliver, fstCallbackVarlen,
    Option.getD]
  obtain ⟨t1, m1, i1, o1⟩ := fstCb_known_input env S 0 1 [49, 0] 1 _ hi
  have l1 := miscompares_fstCb env S 0 1 [49, 0] 1
  obtain ⟨t2, m2, i2, o2⟩ := fstCb_known_output env (fstCb env S 0 1 [49, 0] 1) 0 2 [49, 0] 1
    { bits := 1, signal := 1, expected := 2 } (by rw [o1, ho]; rfl) (by rw [i1]; exact hi2)
  have l2 := miscompares_fstCb env (fstCb env S 0 1 [49, 0] 1) 0 2 [49, 0] 1
  obtain ⟨t3, m3, i3, o3⟩ := fstCb_known_input env
    (fstCb env (fstCb env S 0 1 [49, 0] 1) 0 2 [49, 0] 1) 10 1 [48, 0] 1
    { bits := 1, signal := 0, expected := 0 } (by rw [i2, i1]; exact hi)
  have l3 := miscompares_fstCb env
    (fstCb env (fstCb env S 0 1 [49, 0] 1) 0 2 [49, 0] 1) 10 1 [48, 0] 1
  obtain ⟨t4, m4, i4, o4⟩ := fstCb_known_output env
    (fstCb env (fstCb env (fstCb env S 0 1 [49, 0] 1) 0 2 [49, 0] 1) 10 1 [48, 0] 1)
    10 2 [48, 0] 1 { bits := 1, signal := 1, expected := 2 }
    (by rw [o3, o2, o1, ho]; rfl) (by rw [i3, i2, i1]; exact hi2)
  have l4 := miscompares_fstCb env
    (fstCb env (fstCb env (fstCb env S 0 1 [49, 0] 1) 0 2 [49, 0] 1) 10 1 [48, 0] 1)
    10 2 [48, 0] 1
  have hmem1 : (fstCb env S 0 1 [49, 0] 1).mem = S.mem.store 0 1 := by
    rw [m1, copyValue_one_bit]
    simp [memAfterStep, ht, chr1]
  have hmem2 : (fstCb env (fstCb env S 0 1 [49, 0] 1) 0 2 [49, 0] 1).mem
      = (S.mem.store 0 1).store 2 1 := by
    rw [m2, copyValue_one_bit]
    simp [memAfterStep, t1, hmem1, chr1]
  have hmem3 : (fstCb env (fstCb env (fstCb env S 0 1 [49, 0] 1) 0 2 [49, 0] 1)
      10 1 [48, 0] 1).mem
      = ((env.modelEval ((S.mem.store 0 1).store 2 1))).store 0 0 := by
    rw [m3, copyValue_one_bit]
    simp [memAfterStep, t2, hmem2, chr1]
  have hmem4 : (fstCb env (fstCb env (fstCb env (fstCb env S 0 1 [49, 0] 1) 0 2 [49, 0] 1)
      10 1 [48, 0] 1) 10 2 [48, 0] 1).mem
      = (((env.modelEval ((S.mem.store 0 1).store 2 1))).store 0 0).store 2 0 := by
    rw [m4, copyValue_one_bit]
    simp [memAfterStep, t3, hmem3, chr1]
  simp only [l4, l3, l2, l1, t1, t2, t3, t4, o4, o3, o2, o1, ho, hmem2, hmem4, hl, ht, henv]
  simp [List.filter, differs_one_byte, Mem.store]

/-! ## Facts about registration and `init` -/

section MapFacts

variable {κ α : Type} [DecidableEq κ] [LT κ] [DecidableRel (fun a b : κ => a < b)]

theorem mapFind_mapAssign_self (m : List (κ × α)) (k : κ) (v : α) :
    mapFind (mapAssign m k v) k = some v := by
  induction m with
  | nil => simp [mapAssign, mapFind]
  | cons hd tl ih =>
    obtain ⟨k0, v0⟩ := hd
    unfold mapAssign
    by_cases h1 : k < k0
    · rw [if_pos h1]; simp [mapFind]
    · rw [if_neg h1]
      by_cases h2 : k = k0
      · rw [if_pos h2]; simp [mapFind, h2]
      · have h3 : ¬ k0 = k := fun h => h2 h.symm
        rw [if_neg h2]
        unfold mapFind
        rw [if_neg h3, ih]

theorem mapFind_mapAssign_ne (m : List (κ × α)) (k k' : κ) (v : α) (hne : k' ≠ k) :
    mapFind (mapAssign m k v) k' = mapFind m k' := by
  have hkk : ¬ k = k' := fun h => hne h.symm
  induction m with
  | nil => simp [mapAssign, mapFind, hkk]
  | cons hd tl ih =>
    obtain ⟨k0, v0⟩ := hd
    unfold mapAssign
    by_cases h1 : k < k0
    · rw [if_pos h1]
      conv_lhs => unfold mapFind
      rw [if_neg hkk]
    · rw [if_neg h1]
      by_cases h2 : k = k0
      · have h3 : ¬ k0 = k' := fun h => hkk (h2.trans h)
        rw [if_pos h2]
        unfold mapFind
        rw [if_neg h3, if_neg h3]
      · rw [if_neg h2]
        unfold mapFind
        rw [ih]

theorem mapFind_mapInsert_other (m : List (κ × α)) (k k' : κ) (v : α) (hne : k' ≠ k) :
    mapFind (mapInsert m k v) k' = mapFind m k' := by
  have hkk : ¬ k = k' := fun h => hne h.symm
  induction m with
  | nil => simp [mapInsert, mapFind, hkk]
  | cons hd tl ih =>
    obtain ⟨k0, v0⟩ := hd
    unfold mapInsert
    by_cases h1 : k < k0
    · rw [if_pos h1]
      conv_lhs => unfold mapFind
      rw [if_neg hkk]
    · rw [if_neg h1]
      by_cases h2 : k = k0
      · rw [if_pos h2]
      · rw [if_neg h2]
        unfold mapFind
        rw [ih]

theorem mapFind_mapInsert_new (m : List (κ × α)) (k : κ) (v : α)
    (hnone : mapFind m k = none) : mapFind (mapInsert m k v) k = some v := by
  induction m with
  | nil => simp [mapInsert, mapFind]
  | cons hd tl ih =>
    obtain ⟨k0, v0⟩ := hd
    have hk0 : ¬ k0 = k := by
      intro h
      simp [mapFind, h] at hnone
    have htl : mapFind tl k = none := by
      simpa [mapFind, hk0] using hnone
    unfold mapInsert
    by_cases h1 : k < k0
    · rw [if_pos h1]; simp [mapFind]
    · have h2 : ¬ k = k0 := fun h => hk0 h.symm
      rw [if_neg h1, if_neg h2]
      unfold mapFind
      rw [if_neg hk0, ih htl]

/-- A default entry that `operator[]` inserts for one key does not change what
`operator[]` returns for any key. -/
theorem mapIndex_stable (d : α) (m : List (κ × α)) (k k' : κ) :
    (mapIndex d (mapIndex d m k').2 k).1 = (mapIndex d m k).1 := by
  cases hk' : mapFind m k' with
  | some v =>
    have : mapIndex d m k' = (v, m) := by unfold mapIndex; rw [hk']
    rw [this]
  | none =>
    have h1 : mapIndex d m k' = (d, mapInsert m k' d) := by unfold mapIndex; rw [hk']
    rw [h1]
    by_cases hkk : k = k'
    · subst hkk
      unfold mapIndex
      rw [mapFind_mapInsert_new m k d hk', hk']
    · unfold mapIndex
      rw [mapFind_mapInsert_other m k' k d hkk]
      cases mapFind m k <;> rfl

end MapFacts

theorem register_frame (s : State) (r : Registration) :
    (register s r).mem = s.mem ∧ (register s r).m_inputHandles = s.m_inputHandles
    ∧ (register s r).m_outputHandles = s.m_outputHandles := by
  unfold register
  split <;> exact ⟨rfl, rfl, rfl⟩

theorem register_foldl_frame (l : List Registration) (s : State) :
    (l.foldl register s).mem = s.mem
    ∧ (l.foldl register s).m_inputHandles = s.m_inputHandles
    ∧ (l.foldl register s).m_outputHandles = s.m_outputHandles := by
  induction l generalizing s with
  | nil => exact ⟨rfl, rfl, rfl⟩
  | cons r rest ih =>
    obtain ⟨h1, h2, h3⟩ := register_frame s r
    obtain ⟨i1, i2, i3⟩ := ih (register s r)
    exact ⟨i1.trans h1, i2.trans h2, i3.trans h3⟩

theorem createMod_frame (env : Env) (s : State) :
    (createMod env s).mem = s.mem ∧ (createMod env s).m_inputHandles = s.m_inputHandles
    ∧ (createMod env s).m_outputHandles = s.m_outputHandles := by
  unfold createMod
  split <;> exact ⟨rfl, rfl, rfl⟩

theorem registered_frame (env : Env) (w : Session) (s : State) :
    (registered env w s).mem = s.mem
    ∧ (registered env w s).m_inputHandles = s.m_inputHandles
    ∧ (registered env w s).m_outputHandles = s.m_outputHandles := by
  obtain ⟨h1, h2, h3⟩ := createMod_frame env s
  obtain ⟨i1, i2, i3⟩ := register_foldl_frame w.signals (createMod env s)
  exact ⟨i1.trans h1, i2.trans h2, i3.trans h3⟩

/-- What the first loop of `init` leaves untouched. -/
theorem initInput_foldl_frame (env : Env) (l : List (Nat × FstVar)) (s : State) :
    (l.foldl (initInputBody env) s).mem = s.mem
    ∧ (l.foldl (initInputBody env) s).m_outputHandles = s.m_outputHandles
    ∧ (l.foldl (initInputBody env) s).m_outputNames = s.m_outputNames
    ∧ (l.foldl (initInputBody env) s).m_outputs = s.m_outputs := by
  induction l generalizing s with
  | nil => exact ⟨rfl, rfl, rfl, rfl⟩
  | cons it rest ih =>
    obtain ⟨i1, i2, i3, i4⟩ := ih (initInputBody env s it)
    exact ⟨i1, i2, i3, i4⟩

theorem initInput_foldl_names (env : Env) (l : List (Nat × FstVar)) (s : State) (k : String) :
    (mapIndex env.defaultSignal (l.foldl (initInputBody env) s).m_inputNames k).1
      = (mapIndex env.defaultSignal s.m_inputNames k).1 := by
  induction l generalizing s with
  | nil => rfl
  | cons it rest ih =>
    rw [List.foldl_cons, ih (initInputBody env s it)]
    exact mapIndex_stable env.defaultSignal s.m_inputNames k it.2.fullName

theorem initInput_foldl_other (env : Env) (l : List (Nat × FstVar)) (s : State) (h : Nat)
    (hh : h ∉ l.map Prod.fst) :
    mapFind (l.foldl (initInputBody env) s).m_inputHandles h = mapFind s.m_inputHandles h := by
  induction l generalizing s with
  | nil => rfl
  | cons it rest ih =>
    have h1 : h ≠ it.1 := fun e => hh (by simp [e])
    have h2 : h ∉ rest.map Prod.fst := fun e => hh (by simp at e ⊢; exact Or.inr e)
    rw [List.foldl_cons, ih (initInputBody env s it) h2]
    exact mapFind_mapAssign_ne s.m_inputHandles it.1 h _ h1

/-- The entry the first loop of `init` leaves for each variable of `m_inputs`. -/
theorem initInput_foldl_bound (env : Env) (l : List (Nat × FstVar)) (s : State)
    (hnd : (l.map Prod.fst).Nodup) (it : Nat × FstVar) (hit : it ∈ l) :
    mapFind (l.foldl (initInputBody env) s).m_inputHandles it.1
      = some (FstSignal.ofSignal it.2.length
          (mapIndex env.defaultSignal s.m_inputNames it.2.fullName).1.signal) := by
  induction l generalizing s with
  | nil => exact absurd hit (List.not_mem_nil _)
  | cons x rest ih =>
    rw [List.map_cons, List.nodup_cons] at hnd
    rw [List.foldl_cons]
    rcases List.mem_cons.mp hit with hx | hr
    · subst hx
      rw [initInput_foldl_other env rest (initInputBody env s it) it.1 hnd.1]
      exact mapFind_mapAssign_self s.m_inputHandles it.1 _
    · rw [ih (initInputBody env s x) hnd.2 hr]
      have := mapIndex_stable env.defaultSignal s.m_inputNames it.2.fullName x.2.fullName
      simp only [initInputBody]
      rw [this]

/-- What the second loop of `init` leaves untouched. -/
theorem initOutput_foldl_frame (env : Env) (w : Session) (l : List (Nat × FstVar))
    (s : State) :
    (l.foldl (initOutputBody env w) s).mem = s.mem
    ∧ (l.foldl (initOutputBody env w) s).m_inputHandles = s.m_inputHandles := by
  induction l generalizing s with
  | nil => exact ⟨rfl, rfl⟩
  | cons it rest ih =>
    obtain ⟨i1, i2⟩ := ih (initOutputBody env w s it)
    exact ⟨i1, i2⟩

theorem initOutput_foldl_names (env : Env) (w : Session) (l : List (Nat × FstVar))
    (s : State) (k : String) :
    (mapIndex env.defaultSignal (l.foldl (initOutputBody env w) s).m_outputNames k).1
      = (mapIndex env.defaultSignal s.m_outputNames k).1 := by
  induction l generalizing s with
  | nil => rfl
  | cons it rest ih =>
    rw [List.foldl_cons, ih (initOutputBody env w s it)]
    exact mapIndex_stable env.defaultSignal s.m_outputNames k it.2.fullName

theorem initOutput_foldl_other (env : Env) (w : Session) (l : List (Nat × FstVar))
    (s : State) (h : Nat) (hh : h ∉ l.map Prod.fst) :
    mapFind (l.foldl (initOutputBody env w) s).m_outputHandles h
      = mapFind s.m_outputHandles h := by
  induction l generalizing s with
  | nil => rfl
  | cons it rest ih =>
    have h1 : h ≠ it.1 := fun e => hh (by simp [e])
    have h2 : h ∉ rest.map Prod.fst := fun e => hh (by simp at e ⊢; exact Or.inr e)
    rw [List.foldl_cons, ih (initOutputBody env w s it) h2]
    exact mapFind_mapAssign_ne s.m_outputHandles it.1 h _ h1

/-- The entry the second loop of `init` leaves for each variable of `m_outputs`. -/
theorem initOutput_foldl_bound (env : Env) (w : Session) (l : List (Nat × FstVar))
    (s : State) (hnd : (l.map Prod.fst).Nodup) (it : Nat × FstVar) (hit : it ∈ l) :
    mapFind (l.foldl (initOutputBody env w) s).m_outputHandles it.1
      = some { bits := it.2.length
               signal := (mapIndex env.defaultSignal s.m_outputNames it.2.fullName).1.signal
               expected := w.newBuffer it.1 ((it.2.length + 7) / 8) } := by
  induction l generalizing s with
  | nil => exact absurd hit (List.not_mem_nil _)
  | cons x rest ih =>
    rw [List.map_cons, List.nodup_cons] at hnd
    rw [List.foldl_cons]
    rcases List.mem_cons.mp hit with hx | hr
    · subst hx
      rw [initOutput_foldl_other env w rest (initOutputBody env w s it) it.1 hnd.1]
      exact mapFind_mapAssign_self s.m_outputHandles it.1 _
    · rw [ih (initOutputBody env w s x) hnd.2 hr]
      have := mapIndex_stable env.defaultSignal s.m_outputNames it.2.fullName x.2.fullName
      simp only [initOutputBody]
      rw [this]

/-- The state `init` leaves, by its loops over the registry `registered env w s`. -/
theorem init_state_eq (env : Env) (w : Session) (s : State) :
    (init env w s).state
      = w.outputs.foldl (initOutputBody env w)
          (w.inputs.foldl (initInputBody env)
            { registered env w s with
              m_inputs := w.inputs
              m_outputs := w.outputs
              m_time := w.startTime
              m_simTime := w.startTime }) := by
  have h := (initInput_foldl_frame env w.inputs
    { registered env w s with
      m_inputs := w.inputs
      m_outputs := w.outputs
      m_time := w.startTime
      m_simTime := w.startTime }).2.2.2
  simp only [init, registered] at h ⊢
  rw [h]

/-! ## Claims about the packer -/

theorem getD_eq_get (valuep : List Nat) (j : Nat) (hj : j < valuep.length) :
    valuep.getD j 0 = valuep.get ⟨j, hj⟩ := by
  simp [List.getD_eq_getElem?_getD, List.getElem?_eq_getElem hj]

/-- C1 (Value Packer bit law).  For a source string of `len` characters and any
destination, after `copyValue(to, valuep, len)` bit `i` of the destination (bit `i % 8` of
byte `i / 8`) is 1 if and only if the source character at position `len-1-i` is `'1'`, for
every `i < len`; any other character yields a 0 bit. -/
theorem copyValue_bit_law (mem : Mem) (to_ : Nat) (valuep : List Nat) (len : Nat)
    (hlen : valuep.length = len) (i : Nat) (hi : i < len) :
    ((copyValue mem to_ valuep len (to_ + i / 8)).testBit (i % 8) = true
        ↔ valuep.get ⟨len - 1 - i, by omega⟩ = chr1)
    ∧ (valuep.get ⟨len - 1 - i, by omega⟩ ≠ chr1 →
        (copyValue mem to_ valuep len (to_ + i / 8)).testBit (i % 8) = false) := by
  have hin : to_ ≤ to_ + i / 8 ∧ to_ + i / 8 < to_ + (len + 7) / 8 := by omega
  have hidx : to_ + i / 8 - to_ = i / 8 := by omega
  have hmin : i % 8 < min 8 (len - 8 * (i / 8)) := by omega
  have hk : 8 * (i / 8) + i % 8 = i := Nat.div_add_mod i 8
  have hbit : (copyValue mem to_ valuep len (to_ + i / 8)).testBit (i % 8)
      = decide (valuep.get ⟨len - 1 - i, by omega⟩ = chr1) := by
    rw [copyValue_apply, if_pos hin, hidx, testBit_packBits, hk, srcBit,
      getD_eq_get valuep (len - 1 - i) (by omega)]
    simp [hmin]
  rw [hbit]
  constructor
  · exact ⟨fun h => of_decide_eq_true h, fun h => decide_eq_true h⟩
  · intro h
    exact decide_eq_false h

/-- Witness of C1: the value of scenario S3 packs to the bytes `0x01, 0x08`, and its top
bit obeys the bit law. -/
theorem copyValue_bit_law_witness :
    (copyValue (fun _ => 255) 0 s3Value 12 0 = 0x01
      ∧ copyValue (fun _ => 255) 0 s3Value 12 1 = 0x08)
    ∧ (((copyValue (fun _ => 255) 0 s3Value 12 (0 + 11 / 8)).testBit (11 % 8) = true
        ↔ s3Value.get ⟨12 - 1 - 11, by decide⟩ = chr1)
      ∧ (s3Value.get ⟨12 - 1 - 11, by decide⟩ ≠ chr1 →
        (copyValue (fun _ => 255) 0 s3Value 12 (0 + 11 / 8)).testBit (11 % 8) = false)) :=
  ⟨by decide, copyValue_bit_law (fun _ => 255) 0 s3Value 12 rfl 11 (by decide)⟩

/-- C2 (Packing round-trip).  For every width `w <= 4096` and every bit pattern `b` of `w`
bits, packing the MSB-first ASCII encoding of `b` with `copyValue` and reading bits
`0 .. w-1` of the packed bytes back yields `b`, and every bit at a position `>= w` in the
final byte is zero, whatever the destination held before. -/
theorem copyValue_round_trip (mem : Mem) (to_ : Nat) (w : Nat) (b : List Bool)
    (hw : w ≤ 4096) (hb : b.length = w) :
    unpackBits (copyValue mem to_ (encodeBits b) w) to_ w = b
    ∧ ∀ j, w ≤ j → j / 8 = (w - 1) / 8 → 0 < w →
        bufBit (copyValue mem to_ (encodeBits b) w) to_ j = false := by
  subst hb
  constructor
  · apply List.ext_getElem
    · simp [unpackBits]
    · intro i h1 h2
      have hi : i < b.length := h2
      simp only [unpackBits, List.getElem_map, List.getElem_range]
      rw [bufBit_copyValue mem to_ (encodeBits b) b.length i hi, srcBit_encodeBits b i hi]
      rfl
  · intro j hj hbyte hpos
    rw [bufBit, hbyte]
    exact copyValue_last_byte mem to_ (encodeBits b) b.length (j % 8) hpos (by omega)

/-- Witness of C2: the 3-bit pattern 1,1,0 (LSB first) packed over a destination full of
ones. -/
theorem copyValue_round_trip_witness :
    unpackBits (copyValue (fun _ => 255) 0 (encodeBits [true, true, false]) 3) 0 3
        = [true, true, false]
    ∧ ∀ j, 3 ≤ j → j / 8 = (3 - 1) / 8 → 0 < 3 →
        bufBit (copyValue (fun _ => 255) 0 (encodeBits [true, true, false]) 3) 0 j = false :=
  copyValue_round_trip (fun _ => 255) 0 3 [true, true, false] (by decide) rfl

/-- C3 (Packer bounds and totality).  For every `len`, `copyValue` (a total function)
reads exactly the source positions `len-1, ..., 0`, all below `len`; it stores to exactly
the destination bytes `0 .. ceil(len/8)-1`, once each and in that order; every other byte
of memory is left as it was; for `len = 0` it reads nothing and writes nothing. -/
theorem copyValue_bounds (mem : Mem) (to_ : Nat) (valuep : List Nat) (len : Nat) :
    (copyValueRun mem to_ valuep len).reads = (List.range len).map (fun bit => len - 1 - bit)
    ∧ (∀ r ∈ (copyValueRun mem to_ valuep len).reads, r < len)
    ∧ (copyValueRun mem to_ valuep len).writes
        = (List.range ((len + 7) / 8)).map (fun j => to_ + j)
    ∧ (∀ a, ¬ (to_ ≤ a ∧ a < to_ + (len + 7) / 8) → copyValue mem to_ valuep len a = mem a)
    ∧ (copyValueRun mem to_ valuep 0).reads = []
    ∧ (copyValueRun mem to_ valuep 0).writes = []
    ∧ copyValue mem to_ valuep 0 = mem := by
  have inv := copyInv_run mem to_ valuep len
  have hreads := inv.reads_eq
  refine ⟨hreads, ?_, ?_, ?_, rfl, rfl, rfl⟩
  · intro r hr
    rw [hreads] at hr
    obtain ⟨bit, hbit, rfl⟩ := List.mem_map.mp hr
    have := List.mem_range.mp hbit
    omega
  · simpa [doneBytes] using inv.writes_eq
  · intro a ha
    rw [copyValue_apply, if_neg ha]

/-! ## Claims about the output check -/

/-- What the output check reports, in every state: one Miscompare report for each output
descriptor whose first `ceil(width/8)` bytes of the actual buffer differ from those of the
expected buffer, and none for the others; each report carries the full name the registry
holds for that handle and the number `%ld` prints for `m_time`, which is `m_time` itself
as long as `m_time < 2^63`; all descriptors are checked, in map order, and nothing but the
log (and a default entry `m_outputs` may gain) changes, so the run goes on.  `eval` runs
this check right after the model's `eval`, on the memory the model left. -/
theorem outputCheck_log (env : Env) (s : State) :
    (outputCheck env s).log
        = s.log ++ (s.m_outputHandles.filter (fun it => decide (differs s.mem it.2))).map
            (fun it => Action.miscompare (fullNameOf env s.m_outputs it.1)
              (printedLd s.m_time))
    ∧ CheckFrame s (outputCheck env s)
    ∧ (eval env s).log
        = s.log ++ [Action.eval s.m_time]
          ++ (s.m_outputHandles.filter
                (fun it => decide (differs (env.modelEval s.mem) it.2))).map
              (fun it => Action.miscompare (fullNameOf env s.m_outputs it.1)
                (printedLd s.m_time))
    ∧ (s.m_time < 2 ^ 63 → printedLd s.m_time = (s.m_time : Int)) := by
  obtain ⟨f, l, _⟩ := outputCheck_spec env s
  obtain ⟨_, _, _, _, _, _, e7⟩ := eval_spec env s
  exact ⟨l, f, e7, printedLd_of_lt s.m_time⟩

/-- C4 (Output Checker), at the failing input.  In scenario S1 a stream whose single event
has the time `2^63 = 9223372036854775808` (input `top.a`, value `"1"`) makes the run call
`eval` at the current times 0 and `2^63`; the check at time `2^63` finds `top.y` differing
from its expected byte, and the Miscompare report it produces carries the full name
`top.y` and the number `-9223372036854775808`, not the current simulated time. -/
theorem outputCheck_report_time_negative :
    evalTimes (replay (s1Env true) s1State { calls := s1LateStream, ret := 1 }).1.log
        = [0, 9223372036854775808]
    ∧ (replay (s1Env true) s1State { calls := s1LateStream, ret := 1 }).1.m_time
        = 9223372036854775808
    ∧ miscompares (replay (s1Env true) s1State { calls := s1LateStream, ret := 1 }).1.log
        = [("top.y", -9223372036854775808)] := by
  decide

/-! ## Claims about the event handler -/

/-- Counterexample to C5 as stated: in a build without `VM_TRACE`, an event at time 10
arriving at current time 0 makes the handler evaluate the model but emit no trace
sample. -/
theorem fstCb_no_trace_sample :
    s1State.m_time < 10
    ∧ evalTimes (fstCb (s1Env false) s1State 10 1 [48, 0] 1).log = [0]
    ∧ traceSamples (fstCb (s1Env false) s1State 10 1 [48, 0] 1).log = [] := by
  decide

/-- C5, amended (event handler time step).  In an engine state with `m_simTime = m_time`:
if `time > current_time` the handler calls the model's `eval`, runs the output check on
the evaluated memory, emits a trace sample stamped with the old `current_time` when the
build has `VM_TRACE` and the trace sink is open (and no sample otherwise), and only then
sets `current_time` to `time`, all before the event's value is packed; if
`time == current_time` it performs no eval, no check, no trace sample and leaves
`current_time` unchanged. -/
theorem fstCb_time_step (env : Env) (s : State) (time facidx : Nat) (valuep : List Nat)
    (len : Nat) (hsim : s.m_simTime = s.m_time) :
    (s.m_time < time → ∃ dst,
      (fstCb env s time facidx valuep len).log
        = s.log ++ [Action.eval s.m_time]
          ++ dueReports env (env.modelEval s.mem) s.m_outputs s.m_time s.m_outputHandles
          ++ (if env.VM_TRACE && s.m_tfp then [Action.dump s.m_time] else [])
          ++ [Action.printEvent time facidx valuep, Action.copy dst len]
      ∧ (fstCb env s time facidx valuep len).m_time = time
      ∧ (fstCb env s time facidx valuep len).mem
          = copyValue (env.modelEval s.mem) dst valuep len)
    ∧ (time = s.m_time → ∃ dst,
      (fstCb env s time facidx valuep len).log
        = s.log ++ [Action.printEvent time facidx valuep, Action.copy dst len]
      ∧ (fstCb env s time facidx valuep len).m_time = s.m_time
      ∧ (fstCb env s time facidx valuep len).mem = copyValue s.mem dst valuep len) := by
  obtain ⟨dst, hlog, htime, _, _, hmem⟩ := fstCb_spec env s time facidx valuep len
  constructor
  · intro hlt
    have hne : s.m_time ≠ time := by omega
    refine ⟨dst, ?_, htime, ?_⟩
    · rw [hlog, boundaryLog, if_pos hne, traceSample, hsim]
      simp only [List.append_assoc]
    · rw [hmem, if_pos hne]
  · intro heq
    have hne : ¬ s.m_time ≠ time := by simp [heq]
    refine ⟨dst, ?_, htime.trans heq, ?_⟩
    · rw [hlog, boundaryLog, if_neg hne]
      simp
    · rw [hmem, if_neg hne]

/-- Witness of C5 (amended): scenario S1 with tracing on; an event at time 10 and an event
at time 0, both arriving at current time 0. -/
theorem fstCb_time_step_witness :
    (∃ dst,
      (fstCb (s1Env true) s1State 10 1 [48, 0] 1).log
        = s1State.log ++ [Action.eval s1State.m_time]
          ++ dueReports (s1Env true) ((s1Env true).modelEval s1State.mem) s1State.m_outputs
              s1State.m_time s1State.m_outputHandles
          ++ (if (s1Env true).VM_TRACE && s1State.m_tfp then [Action.dump s1State.m_time]
              else [])
          ++ [Action.printEvent 10 1 [48, 0], Action.copy dst 1]
      ∧ (fstCb (s1Env true) s1State 10 1 [48, 0] 1).m_time = 10
      ∧ (fstCb (s1Env true) s1State 10 1 [48, 0] 1).mem
          = copyValue ((s1Env true).modelEval s1State.mem) dst [48, 0] 1)
    ∧ (∃ dst,
      (fstCb (s1Env true) s1State 0 1 [49, 0] 1).log
        = s1State.log ++ [Action.printEvent 0 1 [49, 0], Action.copy dst 1]
      ∧ (fstCb (s1Env true) s1State 0 1 [49, 0] 1).m_time = s1State.m_time
      ∧ (fstCb (s1Env true) s1State 0 1 [49, 0] 1).mem
          = copyValue s1State.mem dst [49, 0] 1) :=
  ⟨(fstCb_time_step (s1Env true) s1State 10 1 [48, 0] 1 rfl).1 (by decide),
    (fstCb_time_step (s1Env true) s1State 0 1 [49, 0] 1 rfl).2 rfl⟩

/-- C6 (eval/write ordering).  In the log of actions produced by processing any event
stream from any state, there is exactly one value write per event, and between the value
writes of two consecutive events there is no `eval` when they share a timestamp and
exactly one `eval` when their timestamps differ. -/
theorem eval_write_ordering (env : Env) (s : State) (calls : List ReaderCall) :
    ∃ L, (deliverAll env s calls).log = s.log ++ L
      ∧ (evalsBeforeCopies L 0).length = calls.length
      ∧ ∀ i (h : i + 1 < calls.length),
          (evalsBeforeCopies L 0)[i + 1]?
            = some (if (calls.get ⟨i, by omega⟩).time = (calls.get ⟨i + 1, h⟩).time
                    then 0 else 1) := by
  obtain ⟨L, hlog, _, hcp, _, _, _⟩ := deliverAll_spec env calls s
  refine ⟨L, hlog, ?_, ?_⟩
  · rw [hcp, changes_length, List.length_map]
  · intro i h
    have h' : i + 1 < (calls.map ReaderCall.time).length := by simpa using h
    rw [hcp, changes_getElem? s.m_time (calls.map ReaderCall.time) i h']
    simp

/-- C7 (final-step coverage).  For a non-empty event stream with non-decreasing timestamps
whose first event is at the current (start) time, a full run (all events, then the step
`replay` takes at the end of the stream) calls `eval` at exactly the distinct timestamps of
the stream, once each and in order; so it performs as many evals as there are distinct
timestamps, the last time step included. -/
theorem final_step_coverage (env : Env) (s : State) (r : ReaderRun) (hne : r.calls ≠ [])
    (hsorted : List.Sorted (fun a b => a ≤ b) (r.calls.map ReaderCall.time))
    (hstart : (r.calls.head hne).time = s.m_time) (hok : r.ret ≠ 0) :
    ∃ L, (replay env s r).1.log = s.log ++ L
      ∧ evalTimes L = (r.calls.map ReaderCall.time).dedup
      ∧ (evalTimes L).length = (r.calls.map ReaderCall.time).toFinset.card := by
  obtain ⟨L, hlog, hev⟩ := replay_evalTimes env s r hok
  have hdedup : evalTimes L = (r.calls.map ReaderCall.time).dedup := by
    rw [hev]
    cases hc : r.calls with
    | nil => exact absurd hc hne
    | cons c rest =>
      have h0 : c.time = s.m_time := by
        have : r.calls.head hne = c := by simp [hc]
        rw [← this]; exact hstart
      have hs : List.Sorted (fun a b => a ≤ b) (c.time :: rest.map ReaderCall.time) := by
        simpa [hc] using hsorted
      rw [← h0, List.map_cons, ← boundaries_eq_dedup c.time (rest.map ReaderCall.time) hs]
      simp [boundaries, lastTime]
  refine ⟨L, hlog, hdedup, ?_⟩
  rw [hdedup, List.card_toFinset]

/-- Witness of C7: the stream of scenario S1, `(t=0, a, "1")`, `(t=10, a, "0")`, in a
tracing build gives exactly two evals, at times 0 and 10, with trace samples at times 0
and 10. -/
theorem final_step_coverage_witness :
    (evalTimes (replay (s1Env true) s1State { calls := s1Stream, ret := 1 }).1.log = [0, 10]
      ∧ traceSamples (replay (s1Env true) s1State { calls := s1Stream, ret := 1 }).1.log
          = [0, 10])
    ∧ ∃ L, (replay (s1Env true) s1State { calls := s1Stream, ret := 1 }).1.log
          = s1State.log ++ L
      ∧ evalTimes L = (s1Stream.map ReaderCall.time).dedup
      ∧ (evalTimes L).length = (s1Stream.map ReaderCall.time).toFinset.card :=
  ⟨by decide,
    final_step_coverage (s1Env true) s1State { calls := s1Stream, ret := 1 }
      (List.cons_ne_nil _ _) (by decide) rfl (by decide)⟩

/-- Counterexample to C8 as stated: in a build without `VM_TRACE`, the end-of-stream step
on the empty stream returns 0 after one `eval` and one `final`, and emits no trace
sample. -/
theorem replay_no_trace_sample :
    (replay (s1Env false) s1State { calls := [], ret := 1 }).2 = Exit.returned 0
    ∧ (replay (s1Env false) s1State { calls := [], ret := 1 }).1.log
        = [Action.eval 0, Action.final]
    ∧ traceSamples (replay (s1Env false) s1State { calls := [], ret := 1 }).1.log = [] := by
  decide

/-- C8, amended (end-of-stream).  When the reader's iteration completes successfully (from
an engine state with `m_simTime = m_time`), `replay` performs exactly one further `eval`
with its output check, then one trace sample at the current time when the build has
`VM_TRACE` and the trace sink is open (and no sample otherwise), then the model's `final`
hook, in that order, and returns 0; for the empty stream the whole run is that one `eval`
(with its check and the optional sample) followed by the one `final`. -/
theorem replay_end_of_stream (env : Env) (s : State) (r : ReaderRun) (hok : r.ret ≠ 0)
    (hsim : s.m_simTime = s.m_time) :
    (replay env s r).2 = Exit.returned 0
    ∧ (replay env s r).1.log
        = (deliverAll env s r.calls).log
          ++ [Action.eval (deliverAll env s r.calls).m_time]
          ++ dueReports env (env.modelEval (deliverAll env s r.calls).mem)
              (deliverAll env s r.calls).m_outputs (deliverAll env s r.calls).m_time
              (deliverAll env s r.calls).m_outputHandles
          ++ (if env.VM_TRACE && s.m_tfp then [Action.dump (deliverAll env s r.calls).m_time]
              else [])
          ++ [Action.final]
    ∧ (replay env s { calls := [], ret := r.ret }).1.log
        = s.log ++ [Action.eval s.m_time]
          ++ dueReports env (env.modelEval s.mem) s.m_outputs s.m_time s.m_outputHandles
          ++ (if env.VM_TRACE && s.m_tfp then [Action.dump s.m_time] else [])
          ++ [Action.final] := by
  obtain ⟨_, _, _, _, _, htfp, hs⟩ := deliverAll_spec env r.calls s
  obtain ⟨hret, hlog⟩ := replay_ok_spec env s r hok
  obtain ⟨_, hlog0⟩ := replay_ok_spec env s { calls := [], ret := r.ret } hok
  refine ⟨hret, ?_, ?_⟩
  · rw [hlog, traceSample, htfp, hs hsim]
  · rw [hlog0, traceSample]
    show s.log ++ _ ++ _ ++ (if env.VM_TRACE && s.m_tfp then [Action.dump s.m_simTime] else [])
      ++ _ = _
    rw [hsim]
    rfl

/-- Witness of C8 (amended): the run of scenario S1 in a tracing build. -/
theorem replay_end_of_stream_witness :
    (replay (s1Env true) s1State { calls := s1Stream, ret := 1 }).2 = Exit.returned 0
    ∧ (replay (s1Env true) s1State { calls := s1Stream, ret := 1 }).1.log
        = (deliverAll (s1Env true) s1State s1Stream).log
          ++ [Action.eval (deliverAll (s1Env true) s1State s1Stream).m_time]
          ++ dueReports (s1Env true)
              ((s1Env true).modelEval (deliverAll (s1Env true) s1State s1Stream).mem)
              (deliverAll (s1Env true) s1State s1Stream).m_outputs
              (deliverAll (s1Env true) s1State s1Stream).m_time
              (deliverAll (s1Env true) s1State s1Stream).m_outputHandles
          ++ (if (s1Env true).VM_TRACE && s1State.m_tfp then
                [Action.dump (deliverAll (s1Env true) s1State s1Stream).m_time]
              else [])
          ++ [Action.final]
    ∧ (replay (s1Env true) s1State { calls := [], ret := 1 }).1.log
        = s1State.log ++ [Action.eval s1State.m_time]
          ++ dueReports (s1Env true) ((s1Env true).modelEval s1State.mem) s1State.m_outputs
              s1State.m_time s1State.m_outputHandles
          ++ (if (s1Env true).VM_TRACE && s1State.m_tfp then [Action.dump s1State.m_time]
              else [])
          ++ [Action.final] :=
  replay_end_of_stream (s1Env true) s1State { calls := s1Stream, ret := 1 } (by decide) rfl

/-- C9 (time monotonicity).  For an event stream delivered in non-decreasing time order
with all times at or after the current (start) time, the sequence of `current_time`
values at which `eval` is called over the full run, the final end-of-stream `eval`
included, is strictly increasing. -/
theorem eval_times_increasing (env : Env) (s : State) (r : ReaderRun)
    (hsorted : List.Sorted (fun a b => a ≤ b) (r.calls.map ReaderCall.time))
    (hstart : ∀ t ∈ r.calls.map ReaderCall.time, s.m_time ≤ t) (hok : r.ret ≠ 0) :
    ∃ L, (replay env s r).1.log = s.log ++ L
      ∧ List.Sorted (fun a b => a < b) (evalTimes L) := by
  obtain ⟨L, hlog, hev⟩ := replay_evalTimes env s r hok
  refine ⟨L, hlog, ?_⟩
  have hs : List.Sorted (fun a b => a ≤ b) (s.m_time :: r.calls.map ReaderCall.time) :=
    List.pairwise_cons.mpr ⟨hstart, hsorted⟩
  rw [hev, boundaries_eq_dedup s.m_time _ hs]
  exact List.Sorted.lt_of_le (List.Pairwise.sublist (List.dedup_sublist _) hs)
    (List.nodup_dedup _)

/-- Witness of C9: the run of scenario S1 calls `eval` at times 0 and 10. -/
theorem eval_times_increasing_witness :
    evalTimes (replay (s1Env true) s1State { calls := s1Stream, ret := 1 }).1.log = [0, 10]
    ∧ ∃ L, (replay (s1Env true) s1State { calls := s1Stream, ret := 1 }).1.log
          = s1State.log ++ L
      ∧ List.Sorted (fun a b => a < b) (evalTimes L) :=
  ⟨by decide,
    eval_times_increasing (s1Env true) s1State { calls := s1Stream, ret := 1 }
      (by decide) (by decide) (by decide)⟩

/-- Counterexample to C10 as stated: at current time 10 an event with time 5 makes the
handler evaluate the model, set the current time back to 5 and pack the value. -/
theorem fstCb_time_goes_back :
    5 < s1StateAt10.m_time
    ∧ evalTimes (fstCb (s1Env true) s1StateAt10 5 1 [49, 0] 1).log = [10]
    ∧ (fstCb (s1Env true) s1StateAt10 5 1 [49, 0] 1).m_time = 5
    ∧ s1StateAt10.mem 0 = 0
    ∧ (fstCb (s1Env true) s1StateAt10 5 1 [49, 0] 1).mem 0 = 1 := by
  decide

/-- C10, amended (time order is not asserted).  An event whose time is less than
`current_time` is handled like any change of time: the handler signals no failure; it
calls the model's `eval`, runs the output check, takes the trace sample, sets
`current_time` to the event's (earlier) time and packs the event's value. -/
theorem fstCb_earlier_time (env : Env) (s : State) (time facidx : Nat) (valuep : List Nat)
    (len : Nat) (hlt : time < s.m_time) :
    ∃ dst,
      (fstCb env s time facidx valuep len).log
        = s.log ++ [Action.eval s.m_time]
          ++ dueReports env (env.modelEval s.mem) s.m_outputs s.m_time s.m_outputHandles
          ++ traceSample env s
          ++ [Action.printEvent time facidx valuep, Action.copy dst len]
      ∧ (fstCb env s time facidx valuep len).m_time = time
      ∧ (fstCb env s time facidx valuep len).mem
          = copyValue (env.modelEval s.mem) dst valuep len := by
  obtain ⟨dst, hlog, htime, _, _, hmem⟩ := fstCb_spec env s time facidx valuep len
  have hne : s.m_time ≠ time := by omega
  refine ⟨dst, ?_, htime, ?_⟩
  · rw [hlog, boundaryLog, if_pos hne]
    simp only [List.append_assoc]
  · rw [hmem, if_pos hne]

/-- Witness of C10 (amended): scenario S1 at current time 10, an event with time 5. -/
theorem fstCb_earlier_time_witness :
    ∃ dst,
      (fstCb (s1Env true) s1StateAt10 5 1 [49, 0] 1).log
        = s1StateAt10.log ++ [Action.eval s1StateAt10.m_time]
          ++ dueReports (s1Env true) ((s1Env true).modelEval s1StateAt10.mem)
              s1StateAt10.m_outputs s1StateAt10.m_time s1StateAt10.m_outputHandles
          ++ traceSample (s1Env true) s1StateAt10
          ++ [Action.printEvent 5 1 [49, 0], Action.copy dst 1]
      ∧ (fstCb (s1Env true) s1StateAt10 5 1 [49, 0] 1).m_time = 5
      ∧ (fstCb (s1Env true) s1StateAt10 5 1 [49, 0] 1).mem
          = copyValue ((s1Env true).modelEval s1StateAt10.mem) dst [49, 0] 1 :=
  fstCb_earlier_time (s1Env true) s1StateAt10 5 1 [49, 0] 1 (by decide)

/-! ## Claims about the dispatch -/

/-- Counterexample to C11 as stated: in scenario S1 every handle is in exactly one handle
map, yet an event for the output `top.y` that starts a new time step changes the actual
byte of `top.y` (the model's `eval` runs first), and an event of 24 characters for the
1-bit input `top.a` overwrites the expected byte of `top.y`. -/
theorem dispatch_frame_fails :
    (mapFind s1State.m_inputHandles 1 = some { bits := 1, signal := 0, expected := 0 }
      ∧ mapFind s1State.m_outputHandles 1 = none
      ∧ mapFind s1State.m_outputHandles 2 = some { bits := 1, signal := 1, expected := 2 }
      ∧ mapFind s1State.m_inputHandles 2 = none)
    ∧ (s1StateA1.mem 1 = 0 ∧ (fstCb (s1Env true) s1StateA1 10 2 [49, 0] 1).mem 1 = 1)
    ∧ (s1State.mem 2 = 0 ∧ (fstCb (s1Env true) s1State 0 1 ones24 24).mem 2 = 255) := by
  decide

/-- C11, amended (dispatch by direction).  When the event's handle is in exactly one of the
two handle maps: an event for an input handle packs its value at that input's `signal`
pointer (the model's memory), leaves both maps as they are, and leaves every expected
buffer that does not overlap the `ceil(len/8)` bytes written unchanged; an event for an
output handle packs its value at that output's `expected` pointer and leaves every actual
buffer (of an input or an output) that does not overlap the bytes written unchanged.
"Unchanged" compares with memory as the time-step check left it: when the event starts a
new time step the model's `eval` has run first. -/
theorem dispatch_by_direction (env : Env) (s : State) (time facidx : Nat) (valuep : List Nat)
    (len : Nat) :
    (∀ sig, mapFind s.m_inputHandles facidx = some sig →
        mapFind s.m_outputHandles facidx = none →
      (fstCb env s time facidx valuep len).mem
          = copyValue (memAfterStep env s time) sig.signal valuep len
      ∧ (fstCb env s time facidx valuep len).m_inputHandles = s.m_inputHandles
      ∧ (fstCb env s time facidx valuep len).m_outputHandles = s.m_outputHandles
      ∧ ∀ o ∈ s.m_outputHandles,
          disjointRanges sig.signal ((len + 7) / 8) o.2.expected ((o.2.bits + 7) / 8) →
          ∀ i, i < (o.2.bits + 7) / 8 →
            (fstCb env s time facidx valuep len).mem (o.2.expected + i)
              = memAfterStep env s time (o.2.expected + i))
    ∧ (∀ sig, mapFind s.m_outputHandles facidx = some sig →
        mapFind s.m_inputHandles facidx = none →
      (fstCb env s time facidx valuep len).mem
          = copyValue (memAfterStep env s time) sig.expected valuep len
      ∧ (fstCb env s time facidx valuep len).m_inputHandles = s.m_inputHandles
      ∧ (fstCb env s time facidx valuep len).m_outputHandles = s.m_outputHandles
      ∧ ∀ o ∈ s.m_inputHandles ++ s.m_outputHandles,
          disjointRanges sig.expected ((len + 7) / 8) o.2.signal ((o.2.bits + 7) / 8) →
          ∀ i, i < (o.2.bits + 7) / 8 →
            (fstCb env s time facidx valuep len).mem (o.2.signal + i)
              = memAfterStep env s time (o.2.signal + i)) := by
  constructor
  · intro sig hin _
    have hroute : s.m_outputHandles.isEmpty = true
        ∨ (mapFind s.m_inputHandles facidx).isSome = true := Or.inr (by rw [hin]; rfl)
    obtain ⟨f1, f2, f3, _⟩ := fstCb_input_fields env s time facidx valuep len hroute
    rw [mapIndex_of_find env.defaultSignal s.m_inputHandles facidx sig hin] at f1 f2
    dsimp only at f1 f2
    refine ⟨f1, f2, f3, ?_⟩
    intro o _ hdis i hi
    rw [f1]
    apply copyValue_outside
    unfold disjointRanges at hdis
    omega
  · intro sig hout hin
    have hne : s.m_outputHandles ≠ [] := by
      intro h
      rw [h] at hout
      simp [mapFind] at hout
    have hroute : ¬ (s.m_outputHandles.isEmpty = true
        ∨ (mapFind s.m_inputHandles facidx).isSome = true) := by
      rw [isEmpty_eq_true_iff, hin]
      simp [hne]
    obtain ⟨f1, f2, f3, _⟩ := fstCb_output_fields env s time facidx valuep len hroute
    rw [mapIndex_of_find env.defaultSignal s.m_outputHandles facidx sig hout] at f1 f2
    dsimp only at f1 f2
    refine ⟨f1, f3, f2, ?_⟩
    intro o _ hdis i hi
    rw [f1]
    apply copyValue_outside
    unfold disjointRanges at hdis
    omega

/-- Witness of C11: in scenario S1 an event for the input `top.a` leaves the expected byte
of `top.y` (address 2) as it was, and an event for the output `top.y` leaves the model's
bytes of `top.a` and `top.y` (addresses 0 and 1) as they were. -/
theorem dispatch_by_direction_witness :
    ((fstCb (s1Env true) s1State 0 1 [49, 0] 1).mem 0 = 1
      ∧ (fstCb (s1Env true) s1State 0 1 [49, 0] 1).mem 2 = s1State.mem 2)
    ∧ ((fstCb (s1Env true) s1State 0 2 [49, 0] 1).mem 2 = 1
      ∧ (fstCb (s1Env true) s1State 0 2 [49, 0] 1).mem 0 = s1State.mem 0
      ∧ (fstCb (s1Env true) s1State 0 2 [49, 0] 1).mem 1 = s1State.mem 1)
    ∧ (fstCb (s1Env true) s1State 0 1 [49, 0] 1).mem
        = copyValue (memAfterStep (s1Env true) s1State 0) 0 [49, 0] 1
    ∧ (fstCb (s1Env true) s1State 0 2 [49, 0] 1).mem
        = copyValue (memAfterStep (s1Env true) s1State 0) 2 [49, 0] 1 :=
  ⟨by decide, by decide,
    ((dispatch_by_direction (s1Env true) s1State 0 1 [49, 0] 1).1
      { bits := 1, signal := 0, expected := 0 } rfl rfl).1,
    ((dispatch_by_direction (s1Env true) s1State 0 2 [49, 0] 1).2
      { bits := 1, signal := 1, expected := 2 } rfl rfl).1⟩

/-- C19 (routing rule of the handler).  `fstCb` treats an event as an output (packs into
the expected buffer of `m_outputHandles[facidx]`) if and only if the output handle map is
non-empty and the handle is absent from the input handle map; in every other case, and so
for every handle when no output is registered, it treats the event as an input. -/
theorem fstCb_routing (env : Env) (s : State) (time facidx : Nat) (valuep : List Nat)
    (len : Nat) :
    ((s.m_outputHandles ≠ [] ∧ mapFind s.m_inputHandles facidx = none) →
      treatedAsOutput env s time facidx valuep len)
    ∧ (¬ (s.m_outputHandles ≠ [] ∧ mapFind s.m_inputHandles facidx = none) →
      treatedAsInput env s time facidx valuep len)
    ∧ (s.m_outputHandles = [] → treatedAsInput env s time facidx valuep len) := by
  have hin : ¬ (s.m_outputHandles ≠ [] ∧ mapFind s.m_inputHandles facidx = none) →
      treatedAsInput env s time facidx valuep len := by
    intro hc
    have hroute : s.m_outputHandles.isEmpty = true
        ∨ (mapFind s.m_inputHandles facidx).isSome = true := by
      rw [isEmpty_eq_true_iff]
      by_cases he : s.m_outputHandles = []
      · exact Or.inl he
      · right
        cases hf : mapFind s.m_inputHandles facidx with
        | none => exact absurd ⟨he, hf⟩ hc
        | some v => rfl
    exact fstCb_input_fields env s time facidx valuep len hroute
  refine ⟨?_, hin, fun he => hin (fun hc => hc.1 he)⟩
  rintro ⟨hne, hnone⟩
  have hroute : ¬ (s.m_outputHandles.isEmpty = true
      ∨ (mapFind s.m_inputHandles facidx).isSome = true) := by
    rw [isEmpty_eq_true_iff, hnone]
    simp [hne]
  exact fstCb_output_fields env s time facidx valuep len hroute

/-- Witness of C19: in scenario S1 the handle 2 (not an input) is routed as an output and
the handle 1 as an input; with no output registered the handle 2 is routed as an input. -/
theorem fstCb_routing_witness :
    treatedAsOutput (s1Env true) s1State 0 2 [49, 0] 1
    ∧ treatedAsInput (s1Env true) s1State 0 1 [49, 0] 1
    ∧ treatedAsInput (s1Env true) s1InputsOnly 0 2 [49, 0] 1 :=
  ⟨(fstCb_routing (s1Env true) s1State 0 2 [49, 0] 1).1 ⟨by decide, rfl⟩,
    (fstCb_routing (s1Env true) s1State 0 1 [49, 0] 1).2.1 (by decide),
    (fstCb_routing (s1Env true) s1InputsOnly 0 2 [49, 0] 1).2.2 rfl⟩

/-- C20 (an output event stays inside the expected buffer).  For an output descriptor bound
with width `w = sig.bits` (expected buffer of `ceil(w/8)` bytes at `sig.expected`) and an
event for it with `len <= w`, `handleOutput` stores exactly to the bytes at indices below
`ceil(len/8) <= ceil(w/8)` of that buffer, every address it stores to lies within the
buffer, and the expected bytes at indices `>= ceil(len/8)` keep their contents. -/
theorem handleOutput_in_buffer (env : Env) (s : State) (facidx : Nat) (valuep : List Nat)
    (len : Nat) (sig : FstSignal) (hfind : mapFind s.m_outputHandles facidx = some sig)
    (hlen : len ≤ sig.bits) :
    (handleOutput env s facidx valuep len).mem = copyValue s.mem sig.expected valuep len
    ∧ (copyValueRun s.mem sig.expected valuep len).writes
        = (List.range ((len + 7) / 8)).map (fun j => sig.expected + j)
    ∧ (len + 7) / 8 ≤ (sig.bits + 7) / 8
    ∧ (∀ a ∈ (copyValueRun s.mem sig.expected valuep len).writes,
        sig.expected ≤ a ∧ a < sig.expected + (sig.bits + 7) / 8)
    ∧ (∀ j, (len + 7) / 8 ≤ j →
        (handleOutput env s facidx valuep len).mem (sig.expected + j)
          = s.mem (sig.expected + j))
    ∧ (handleOutput env s facidx valuep len).m_outputHandles = s.m_outputHandles := by
  have hidx := mapIndex_of_find env.defaultSignal s.m_outputHandles facidx sig hfind
  have hmem : (handleOutput env s facidx valuep len).mem
      = copyValue s.mem sig.expected valuep len := by
    simp only [handleOutput, hidx]
  have hw : (copyValueRun s.mem sig.expected valuep len).writes
      = (List.range ((len + 7) / 8)).map (fun j => sig.expected + j) := by
    simpa [doneBytes] using (copyInv_run s.mem sig.expected valuep len).writes_eq
  have hle : (len + 7) / 8 ≤ (sig.bits + 7) / 8 := by omega
  refine ⟨hmem, hw, hle, ?_, ?_, ?_⟩
  · intro a ha
    rw [hw] at ha
    obtain ⟨j, hj, rfl⟩ := List.mem_map.mp ha
    have := List.mem_range.mp hj
    omega
  · intro j hj
    rw [hmem]
    exact copyValue_outside s.mem sig.expected valuep len _ (by omega)
  · simp only [handleOutput, hidx]

/-- Witness of C20: in scenario S1 an event of length 1 for the 1-bit output `top.y`,
whose expected buffer is the byte at address 2. -/
theorem handleOutput_in_buffer_witness :
    (handleOutput (s1Env true) s1State 2 [49, 0] 1).mem = copyValue s1State.mem 2 [49, 0] 1
    ∧ (copyValueRun s1State.mem 2 [49, 0] 1).writes
        = (List.range ((1 + 7) / 8)).map (fun j => 2 + j)
    ∧ (1 + 7) / 8 ≤ (1 + 7) / 8
    ∧ (∀ a ∈ (copyValueRun s1State.mem 2 [49, 0] 1).writes, 2 ≤ a ∧ a < 2 + (1 + 7) / 8)
    ∧ (∀ j, (1 + 7) / 8 ≤ j →
        (handleOutput (s1Env true) s1State 2 [49, 0] 1).mem (2 + j) = s1State.mem (2 + j))
    ∧ (handleOutput (s1Env true) s1State 2 [49, 0] 1).m_outputHandles
        = s1State.m_outputHandles :=
  handleOutput_in_buffer (s1Env true) s1State 2 [49, 0] 1
    { bits := 1, signal := 1, expected := 2 } rfl (by decide)

/-! ## Claims about repeated events and the callbacks -/

/-- C17 (later write wins).  For every engine state, every handle and every two values of
the same length, processing the events `(t, h, v1)` and then `(t, h, v2)` leaves the
engine in exactly the state (everything but the log of past actions) reached by processing
`(t, h, v2)` alone. -/
theorem later_write_wins (env : Env) (s : State) (t h : Nat) (v1 v2 : List Nat) (n : Nat) :
    (fstCb env (fstCb env s t h v1 n) t h v2 n).withoutLog
      = (fstCb env s t h v2 n).withoutLog := by
  obtain ⟨_, _, a1t, a1s, a1f, _⟩ := fstCb_spec env s t h v1 n
  obtain ⟨_, _, a2t, a2s, a2f, _⟩ := fstCb_spec env (fstCb env s t h v1 n) t h v2 n
  obtain ⟨_, _, bt, bs, bf, _⟩ := fstCb_spec env s t h v2 n
  obtain ⟨a1n, a1o, a1i, a1u⟩ := fstCb_frame env s t h v1 n
  obtain ⟨a2n, a2o, a2i, a2u⟩ := fstCb_frame env (fstCb env s t h v1 n) t h v2 n
  obtain ⟨bn, bo, bi, bu⟩ := fstCb_frame env s t h v2 n
  have hsame : ¬ (fstCb env s t h v1 n).m_time ≠ t := by simp [a1t]
  have hmemA : memAfterStep env (fstCb env s t h v1 n) t = (fstCb env s t h v1 n).mem := by
    rw [memAfterStep, if_neg hsame]
  have houtA : outputsAfterStep env (fstCb env s t h v1 n) t
      = (fstCb env s t h v1 n).m_outputs := by
    rw [outputsAfterStep, if_neg hsame]
  have hmaps : (fstCb env (fstCb env s t h v1 n) t h v2 n).m_inputHandles
        = (fstCb env s t h v2 n).m_inputHandles
      ∧ (fstCb env (fstCb env s t h v1 n) t h v2 n).m_outputHandles
        = (fstCb env s t h v2 n).m_outputHandles
      ∧ (fstCb env (fstCb env s t h v1 n) t h v2 n).mem = (fstCb env s t h v2 n).mem := by
    by_cases hr : s.m_outputHandles.isEmpty = true
        ∨ (mapFind s.m_inputHandles h).isSome = true
    · obtain ⟨m1, i1, o1, _⟩ := fstCb_input_fields env s t h v1 n hr
      obtain ⟨mB, iB, oB, _⟩ := fstCb_input_fields env s t h v2 n hr
      have hr1 : (fstCb env s t h v1 n).m_outputHandles.isEmpty = true
          ∨ (mapFind (fstCb env s t h v1 n).m_inputHandles h).isSome = true := by
        rw [o1, i1]
        rcases hr with he | hs
        · exact Or.inl he
        · right
          cases hf : mapFind s.m_inputHandles h with
          | none => rw [hf] at hs; exact absurd hs (by simp)
          | some v => rw [mapIndex_of_find _ _ _ v hf, hf]; rfl
      obtain ⟨m2, i2, o2, _⟩ := fstCb_input_fields env (fstCb env s t h v1 n) t h v2 n hr1
      refine ⟨?_, ?_, ?_⟩
      · rw [i2, i1, mapIndex_idem, iB]
      · rw [o2, o1, oB]
      · rw [m2, hmemA, i1, mapIndex_idem, m1, copyValue_overwrite, mB]
    · obtain ⟨m1, o1, i1, _⟩ := fstCb_output_fields env s t h v1 n hr
      obtain ⟨mB, oB, iB, _⟩ := fstCb_output_fields env s t h v2 n hr
      have hne : s.m_outputHandles ≠ [] := by
        intro he
        exact hr (Or.inl ((isEmpty_eq_true_iff _).mpr he))
      have hr1 : ¬ ((fstCb env s t h v1 n).m_outputHandles.isEmpty = true
          ∨ (mapFind (fstCb env s t h v1 n).m_inputHandles h).isSome = true) := by
        rw [o1, i1, isEmpty_eq_true_iff]
        rintro (he | hs)
        · exact mapIndex_snd_ne_nil env.defaultSignal s.m_outputHandles h hne he
        · exact hr (Or.inr hs)
      obtain ⟨m2, o2, i2, _⟩ := fstCb_output_fields env (fstCb env s t h v1 n) t h v2 n hr1
      refine ⟨?_, ?_, ?_⟩
      · rw [i2, i1, iB]
      · rw [o2, o1, mapIndex_idem, oB]
      · rw [m2, hmemA, o1, mapIndex_idem, m1, copyValue_overwrite, mB]
  obtain ⟨hi, ho, hm⟩ := hmaps
  apply State.ext_fields
  · exact a2t.trans bt.symm
  · show (fstCb env (fstCb env s t h v1 n) t h v2 n).m_simTime = (fstCb env s t h v2 n).m_simTime
    rw [a2s, if_neg hsame, a1s, bs]
  · exact a2n.trans (a1n.trans bn.symm)
  · exact a2o.trans (a1o.trans bo.symm)
  · exact a2i.trans (a1i.trans bi.symm)
  · show (fstCb env (fstCb env s t h v1 n) t h v2 n).m_outputs = (fstCb env s t h v2 n).m_outputs
    rw [a2u, houtA, a1u, bu]
  · exact hi
  · exact ho
  · exact a2f.trans (a1f.trans bf.symm)
  · exact hm
  · rfl

/-- C18 (callback shapes agree).  For every time and handle: for a value that is the
characters `v` followed by a terminating zero byte (with `v` short enough for the
`uint32_t` length), the fixed-length callback has exactly the effect of the
variable-length callback called with `n = v.length`; for a null value it has the effect of
the variable-length callback with `n = 0`; and both are the single handler `fstCb`. -/
theorem callback_shapes_agree (env : Env) (s : State) (time facidx : Nat) :
    (∀ v rest : List Nat, (∀ c ∈ v, c ≠ 0) → v.length < 2 ^ 32 →
      fstCallback env s time facidx (some (v ++ 0 :: rest))
          = fstCallbackVarlen env s time facidx (some (v ++ 0 :: rest)) v.length
      ∧ fstCallback env s time facidx (some (v ++ 0 :: rest))
          = fstCb env s time facidx (v ++ 0 :: rest) v.length)
    ∧ fstCallback env s time facidx none = fstCallbackVarlen env s time facidx none 0
    ∧ (∀ valuep len, fstCallbackVarlen env s time facidx valuep len
          = fstCb env s time facidx (valuep.getD []) len) := by
  refine ⟨?_, rfl, fun _ _ => rfl⟩
  intro v rest hv hlt
  have hlen : strlen (v ++ 0 :: rest) % 2 ^ 32 = v.length := by
    rw [strlen_terminated v rest hv, Nat.mod_eq_of_lt hlt]
  have h1 : fstCallback env s time facidx (some (v ++ 0 :: rest))
      = fstCallbackVarlen env s time facidx (some (v ++ 0 :: rest)) v.length := by
    simp only [fstCallback, hlen]
  exact ⟨h1, h1.trans rfl⟩

/-- Witness of C18: the value `"1"` (a `'1'` and the terminating zero) in scenario S1. -/
theorem callback_shapes_agree_witness :
    fstCallback (s1Env true) s1State 0 1 (some ([49] ++ 0 :: []))
        = fstCallbackVarlen (s1Env true) s1State 0 1 (some ([49] ++ 0 :: [])) [49].length
    ∧ fstCallback (s1Env true) s1State 0 1 (some ([49] ++ 0 :: []))
        = fstCb (s1Env true) s1State 0 1 ([49] ++ 0 :: []) [49].length :=
  (callback_shapes_agree (s1Env true) s1State 0 1).1 [49] [] (by decide) (by decide)

/-! ## Claims about registration, `init` and scenario S1 -/

/-- Counterexample to C13 as stated: in scenario S1, with the expected buffer of `top.y`
holding zero, the full run over the stream `(t=0, a, "1")`, `(t=10, a, "0")` produces the
report `Miscompare: top.y @ 0`. -/
theorem s1_run_miscompares :
    miscompares (s1Run true 0 s1Stream).log = [("top.y", 0)] := by
  decide

/-- C13, amended (scenario S1).  With the 1-bit input `top.a`, the 1-bit output `top.y`, a
model whose `eval` sets `y = a`, start time 0 and the stream of exactly the two events
`(t=0, a, "1")` and `(t=10, a, "0")`, the full run produces at least one Miscompare
report for `top.y`: one at time 0 unless the expected byte holds 1, and one at time 10
unless it holds 0 (the stream never writes the expected buffer).  When the stream also
carries the recorded values `(t=0, y, "1")` and `(t=10, y, "0")` of the output, the full
run produces no Miscompare report. -/
theorem s1_identity_passthrough (vmTrace : Bool) (e : Nat) :
    miscompares (s1Run vmTrace e s1Stream).log
        = (if e = 1 then [] else [("top.y", 0)]) ++ (if e = 0 then [] else [("top.y", 10)])
    ∧ miscompares (s1Run vmTrace e s1Stream).log ≠ []
    ∧ miscompares (s1Run vmTrace e s1StreamWithOutputs).log = [] := by
  have h1 : miscompares (s1Run vmTrace e s1Stream).log
      = (if e = 1 then [] else [("top.y", 0)])
        ++ (if e = 0 then [] else [("top.y", 10)]) := by
    unfold s1Run
    rw [s1_init_state]
    exact s1_reports (s1Env vmTrace) _ e rfl rfl rfl rfl rfl rfl rfl
  refine ⟨h1, ?_, ?_⟩
  · rw [h1]
    by_cases h : e = 1
    · subst h; simp
    · simp [h]
  · unfold s1Run
    rw [s1_init_state]
    exact s1_reports_with_outputs (s1Env vmTrace) _ rfl rfl rfl rfl rfl rfl

/-- Counterexample to C14 as stated: `top.x` is registered with width 8 and the reader
reports width 7; `init` returns 0 and binds handle 1 with width 7. -/
theorem init_width_mismatch_binds :
    (init (s1Env true) s4Session (freshState (fun _ => 0))).ret = 0
    ∧ mapFind (init (s1Env true) s4Session (freshState (fun _ => 0))).state.m_inputNames
        "top.x" = some { bits := 8, signal := 0, expected := 0 }
    ∧ mapFind (init (s1Env true) s4Session (freshState (fun _ => 0))).state.m_inputHandles 1
        = some { bits := 7, signal := 0, expected := 0 } := by
  decide

/-- C14, amended (no width check at bind).  `init` never fails (it returns 0) and does not
compare widths: for every variable the reader reports for a registered name it creates
the handle-map entry with the width the reader reports and the registered pointer,
whatever the registered width is; so when the two widths differ the bound descriptor
carries the reader's width. -/
theorem init_binds_reader_width (env : Env) (w : Session) (s : State) :
    (init env w s).ret = 0
    ∧ (∀ it ∈ w.inputs, (w.inputs.map Prod.fst).Nodup →
        ∀ reg, mapFind (registered env w s).m_inputNames it.2.fullName = some reg →
          mapFind (init env w s).state.m_inputHandles it.1
            = some (FstSignal.ofSignal it.2.length reg.signal))
    ∧ (∀ it ∈ w.outputs, (w.outputs.map Prod.fst).Nodup →
        ∀ reg, mapFind (registered env w s).m_outputNames it.2.fullName = some reg →
          mapFind (init env w s).state.m_outputHandles it.1
            = some { bits := it.2.length
                     signal := reg.signal
                     expected := w.newBuffer it.1 ((it.2.length + 7) / 8) }) := by
  refine ⟨rfl, ?_, ?_⟩
  · intro it hit hnd reg hreg
    rw [init_state_eq, (initOutput_foldl_frame env w w.outputs _).2,
      initInput_foldl_bound env w.inputs _ hnd it hit]
    simp only [mapIndex, hreg]
  · intro it hit hnd reg hreg
    rw [init_state_eq, initOutput_foldl_bound env w w.outputs _ hnd it hit,
      (initInput_foldl_frame env w.inputs _).2.2.1]
    simp only [mapIndex, hreg]

/-- Witness of C14 (amended): scenario S4, registered width 8 and reader's width 7. -/
theorem init_binds_reader_width_witness :
    mapFind (init (s1Env true) s4Session (freshState (fun _ => 0))).state.m_inputHandles 1
      = some (FstSignal.ofSignal 7 0) :=
  (init_binds_reader_width (s1Env true) s4Session (freshState (fun _ => 0))).2.1
    (1, { fullName := "top.x", length := 7 }) (by decide) (by decide)
    { bits := 8, signal := 0, expected := 0 } (by decide)

/-- Counterexample to C15 as stated: `top.a` is registered as an input; registering it
again with `addInput` replaces its entry, and registering it with `addOutput` puts the
name into both name maps. -/
theorem addInput_duplicate_overwrites :
    mapFind s1State.m_inputNames "top.a" = some { bits := 1, signal := 0, expected := 0 }
    ∧ mapFind (addInput s1State "top.a" 5 8).m_inputNames "top.a"
        = some { bits := 8, signal := 5, expected := 0 }
    ∧ mapFind (addOutput s1State "top.a" 5 8).m_inputNames "top.a"
        = some { bits := 1, signal := 0, expected := 0 }
    ∧ mapFind (addOutput s1State "top.a" 5 8).m_outputNames "top.a"
        = some { bits := 8, signal := 5, expected := 0 } :=
  ⟨by decide, mapFind_mapAssign_self _ _ _, by decide, mapFind_mapAssign_self _ _ _⟩

/-- C15, amended (duplicate registration overwrites).  `addInput` and `addOutput` never
fail: registering a name sets that name's entry in the input (output) name map to the new
size and pointer, replacing an entry the name already had; the other names of that map
and the whole other name map are left as they were, so a name can be registered both as
an input and as an output. -/
theorem addInput_overwrites (s : State) (fullName : String) (signal size : Nat) :
    mapFind (addInput s fullName signal size).m_inputNames fullName
        = some (FstSignal.ofSignal size signal)
    ∧ (∀ other, other ≠ fullName →
        mapFind (addInput s fullName signal size).m_inputNames other
          = mapFind s.m_inputNames other)
    ∧ (addInput s fullName signal size).m_outputNames = s.m_outputNames
    ∧ mapFind (addOutput s fullName signal size).m_outputNames fullName
        = some (FstSignal.ofSignal size signal)
    ∧ (∀ other, other ≠ fullName →
        mapFind (addOutput s fullName signal size).m_outputNames other
          = mapFind s.m_outputNames other)
    ∧ (addOutput s fullName signal size).m_inputNames = s.m_inputNames :=
  ⟨mapFind_mapAssign_self _ _ _, fun other h => mapFind_mapAssign_ne _ _ other _ h, rfl,
    mapFind_mapAssign_self _ _ _, fun other h => mapFind_mapAssign_ne _ _ other _ h, rfl⟩

/-- Counterexample to C16 as stated: in scenario S1 over a memory full of ones, after
`init` the expected buffer of `top.y` (one byte at address 2) holds 255, not zero. -/
theorem init_expected_not_zeroed :
    mapFind (init (s1Env true) s1Session (freshState (fun _ => 255))).state.m_outputHandles 2
        = some { bits := 1, signal := 1, expected := 2 }
    ∧ (init (s1Env true) s1Session (freshState (fun _ => 255))).state.mem 2 = 255 := by
  decide

/-- C16, amended (expected buffer on creation).  After `init`, every output descriptor has
the reader's width and an expected buffer of exactly `ceil(width/8)` bytes, freshly
allocated with `new vluint8_t[bytes]`; `init` writes no byte of memory, so the buffer's
bytes are whatever that memory held (not necessarily zero) until the first event for that
output is processed. -/
theorem init_expected_buffer (env : Env) (w : Session) (s : State) :
    (init env w s).state.mem = s.mem
    ∧ ∀ it ∈ w.outputs, (w.outputs.map Prod.fst).Nodup →
        ∃ sig, mapFind (init env w s).state.m_outputHandles it.1 = some sig
          ∧ sig.bits = it.2.length
          ∧ sig.expected = w.newBuffer it.1 ((it.2.length + 7) / 8)
          ∧ ∀ i, i < (sig.bits + 7) / 8 →
              (init env w s).state.mem (sig.expected + i) = s.mem (sig.expected + i) := by
  have hmem : (init env w s).state.mem = s.mem := by
    rw [init_state_eq, (initOutput_foldl_frame env w w.outputs _).1,
      (initInput_foldl_frame env w.inputs _).1]
    exact (registered_frame env w s).1
  refine ⟨hmem, ?_⟩
  intro it hit hnd
  refine ⟨{ bits := it.2.length
            signal := (mapIndex env.defaultSignal
              (w.inputs.foldl (initInputBody env)
                { registered env w s with
                  m_inputs := w.inputs
                  m_outputs := w.outputs
                  m_time := w.startTime
                  m_simTime := w.startTime }).m_outputNames it.2.fullName).1.signal
            expected := w.newBuffer it.1 ((it.2.length + 7) / 8) },
    ?_, rfl, rfl, fun i _ => by rw [hmem]⟩
  rw [init_state_eq]
  exact initOutput_foldl_bound env w w.outputs _ hnd it hit

/-- Witness of C16 (amended): scenario S1, where the expected buffer of `top.y` is the one
byte at address 2 and keeps the byte 255 the memory held. -/
theorem init_expected_buffer_witness :
    (init (s1Env true) s1Session (freshState (fun _ => 255))).state.mem = (fun _ => 255)
    ∧ ∃ sig, mapFind
          (init (s1Env true) s1Session (freshState (fun _ => 255))).state.m_outputHandles 2
            = some sig
        ∧ sig.bits = 1
        ∧ sig.expected = 2
        ∧ ∀ i, i < (sig.bits + 7) / 8 →
            (init (s1Env true) s1Session (freshState (fun _ => 255))).state.mem
                (sig.expected + i) = 255 :=
  ⟨(init_expected_buffer (s1Env true) s1Session (freshState (fun _ => 255))).1,
    (init_expected_buffer (s1Env true) s1Session (freshState (fun _ => 255))).2
      (2, { fullName := "top.y", length := 1 }) (by decide) (by decide)⟩

end VerilatedReplay
